import Mathlib

/-!
# Verification of the escrow order-lifecycle engine of `bot.py`

This file shallowly embeds the storage layer and the aiogram handlers of
`bot.py` (a Telegram escrow bot mediating paid work between customers and
executors) and proves/refutes the frozen claims about it.

Modelling conventions:
* SQLite rows become Lean structures; the `users`, `orders`, `order_responses`
  and `used_confirmation_codes` tables become lists inside a state record `St`.
* `REAL` monetary amounts are modelled as `ℤ` (exact arithmetic); the claims
  under study are about the transition bookkeeping, not float rounding.
* Timestamps in the transition system are modelled as `Nat` (abstract monotone
  clock `St.now`); the code actually stores ISO-8601 UTC strings and compares
  them lexicographically in SQL, and a separate development at the end of this
  file (`PyDateTime`, claim C10) proves that on the strings the system
  generates, lexicographic order agrees with chronological order, which is
  what justifies the `Nat` abstraction.
* Each aiogram handler runs without any `await` between its storage reads and
  writes, so each handler is one atomic step of the transition system.  The
  background task `refund_expired_orders` however takes a snapshot list of
  expired orders and `await`s (`bot.send_message`) after processing each one,
  so it is modelled by two separate atomic steps: `refund_scan` (the snapshot
  assignment `expired = storage.list_expired_confirmation_orders()`) and
  `refund_process_one` (the body of one iteration of its `for` loop).  Other
  handler events may interleave between these steps, exactly as in the source.
* `St.applied` is a ghost ledger (it influences no behaviour): the cumulative
  credits/debits applied to each account in the holdings sense — external
  deposits (`wallet:topup`) and the escrow-release transfer performed by a
  successful confirmation (credit to the worker, matching debit of the
  customer's escrowed holdings).  It exists only to state the conservation
  claim C7.
-/

namespace Bot

/-- Row of the `users` table (`tg_id`, `role`, `balance`, `email`);
the surrogate `id` column is never consulted by the code and is omitted. -/
structure UserRow where
  tg_id : Nat
  role : Option String
  balance : ℤ
  email : Option String
  deriving Repr, DecidableEq

/-- Row of the `orders` table. -/
structure OrderRow where
  id : Nat
  customer_tg_id : Nat
  assigned_executor_tg_id : Option Nat
  title : String
  description : String
  amount : ℤ
  ad_link : Option String
  status : String
  deadline_at : Nat
  confirm_code : Option String
  confirm_deadline_at : Option Nat
  created_at : Nat
  updated_at : Nat
  deriving Repr, DecidableEq

/-- `DEFAULT_CONFIRM_DEADLINE_HOURS` (default value `24`). -/
def DEFAULT_CONFIRM_DEADLINE_HOURS : Nat := 24

/-- The persistent state: the four tables, the AUTOINCREMENT counter for
`orders.id`, the local variable `expired` of `refund_expired_orders` (the
snapshot the background loop is currently working through), the clock, and
the ghost ledger `applied` (see the file header). -/
structure St where
  users : List UserRow
  orders : List OrderRow
  responses : List (Nat × Nat)          -- (order_id, executor_tg_id)
  usedCodes : List (String × Nat)       -- (code, order_id)
  nextOrderId : Nat
  refundQueue : List OrderRow
  now : Nat
  applied : Nat → ℤ

/-- Empty database; AUTOINCREMENT ids start at 1. -/
def init : St :=
  { users := [], orders := [], responses := [], usedCodes := [],
    nextOrderId := 1, refundQueue := [], now := 0, applied := fun _ => 0 }

/-- `SELECT * FROM users WHERE tg_id = ?`. -/
def get_user (st : St) (tg : Nat) : Option UserRow :=
  st.users.find? (fun u => u.tg_id == tg)

/-- `SELECT * FROM orders WHERE id = ?`. -/
def get_order (st : St) (oid : Nat) : Option OrderRow :=
  st.orders.find? (fun o => o.id == oid)

/-- `UPDATE users SET balance = balance + ? WHERE tg_id = ?`
(a no-op when no row matches). -/
def adjust_balance (st : St) (tg : Nat) (delta : ℤ) : St :=
  { st with users := st.users.map fun u =>
      if u.tg_id = tg then { u with balance := u.balance + delta } else u }

/-- `Storage.get_or_create_user`. -/
def get_or_create_user (st : St) (tg : Nat) : St :=
  if (get_user st tg).isSome then st
  else { st with users := st.users ++ [{ tg_id := tg, role := none, balance := 0, email := none }] }

/-- `UPDATE users SET role = ? WHERE tg_id = ?`. -/
def set_user_role (st : St) (tg : Nat) (role : String) : St :=
  { st with users := st.users.map fun u =>
      if u.tg_id = tg then { u with role := some role } else u }

/-- `UPDATE users SET email = ? WHERE tg_id = ?`. -/
def set_user_email (st : St) (tg : Nat) (email : String) : St :=
  { st with users := st.users.map fun u =>
      if u.tg_id = tg then { u with email := some email } else u }

/-- `Storage.create_order`: INSERT a fresh `open` order, returning its id. -/
def create_order (st : St) (customer_tg_id : Nat) (title description : String)
    (amount : ℤ) (deadline_hours : Nat) (ad_link : Option String) : St × Nat :=
  let o : OrderRow :=
    { id := st.nextOrderId, customer_tg_id := customer_tg_id,
      assigned_executor_tg_id := none, title := title, description := description,
      amount := amount, ad_link := ad_link, status := "open",
      deadline_at := st.now + deadline_hours, confirm_code := none,
      confirm_deadline_at := none, created_at := st.now, updated_at := st.now }
  ({ st with orders := st.orders ++ [o], nextOrderId := st.nextOrderId + 1 },
   st.nextOrderId)

/-- `Storage.add_response`: INSERT, with the `UNIQUE(order_id, executor_tg_id)`
constraint turning a duplicate into a no-op (`IntegrityError` → `False`). -/
def add_response (st : St) (oid tg : Nat) : St :=
  if (oid, tg) ∈ st.responses then st
  else { st with responses := st.responses ++ [(oid, tg)] }

/-- `Storage.assign_executor`:
`UPDATE orders SET assigned_executor_tg_id = ?, status = 'in_progress' ...`. -/
def assign_executor (st : St) (oid ex : Nat) : St :=
  { st with orders := st.orders.map (fun o =>
      if o.id = oid then
        { o with assigned_executor_tg_id := some ex, status := "in_progress",
                 updated_at := st.now }
      else o) }

/-- `Storage.mark_waiting_email_confirmation`: set status, code and
confirmation deadline (`now + DEFAULT_CONFIRM_DEADLINE_HOURS`). -/
def mark_waiting_email_confirmation (st : St) (oid : Nat) (code : String) : St :=
  { st with orders := st.orders.map (fun o =>
      if o.id = oid then
        { o with status := "waiting_email_confirmation", confirm_code := some code,
                 confirm_deadline_at := some (st.now + DEFAULT_CONFIRM_DEADLINE_HOURS),
                 updated_at := st.now }
      else o) }

/-- `Storage.is_code_used`: `SELECT 1 FROM used_confirmation_codes WHERE code = ?`. -/
def is_code_used (st : St) (code : String) : Bool :=
  st.usedCodes.any (fun p => p.1 == code)

/-- `Storage.complete_order_with_code`: set status `completed` and INSERT the
code into `used_confirmation_codes` (one commit). -/
def complete_order_with_code (st : St) (oid : Nat) (code : String) : St :=
  { st with
      orders := st.orders.map (fun o =>
        if o.id = oid then { o with status := "completed", updated_at := st.now } else o),
      usedCodes := st.usedCodes ++ [(code, oid)] }

/-- `Storage.mark_order_refunded`: an unconditional
`UPDATE orders SET status = 'refunded' WHERE id = ?` — note: no status
precondition in the SQL. -/
def mark_order_refunded (st : St) (oid : Nat) : St :=
  { st with orders := st.orders.map (fun o =>
      if o.id = oid then { o with status := "refunded", updated_at := st.now } else o) }

/-- `Storage.list_expired_confirmation_orders`: all orders at
`waiting_email_confirmation` whose `confirm_deadline_at` is set and `≤ now`. -/
def list_expired_confirmation_orders (st : St) : List OrderRow :=
  st.orders.filter (fun o =>
    o.status == "waiting_email_confirmation" &&
    (match o.confirm_deadline_at with
     | some d => decide (d ≤ st.now)
     | none => false))

/-! ## Handlers (one atomic step each, see file header) -/

/-- `cmd_start` — its only state effect is `get_or_create_user`. -/
def cmd_start (st : St) (tg : Nat) : St :=
  get_or_create_user st tg

/-- `cb_set_role`. -/
def cb_set_role (st : St) (tg : Nat) (role : String) : St :=
  set_user_role st tg role

/-- `cmd_set_email`: `get_or_create_user` then `set_user_email`. -/
def cmd_set_email (st : St) (tg : Nat) (email : String) : St :=
  set_user_email (get_or_create_user st tg) tg email

/-- `cb_wallet_topup`: `adjust_balance(tg, 1000)`.  The ghost ledger records
the external deposit exactly when the UPDATE actually hits a row. -/
def cb_wallet_topup (st : St) (tg : Nat) : St :=
  let st1 := adjust_balance st tg 1000
  if (get_user st tg).isSome then
    { st1 with applied := fun x => if x = tg then st1.applied x + 1000 else st1.applied x }
  else st1

/-- `fsm_order_finish` (the money-moving tail of order creation): reject when
`balance < amount`, otherwise debit the customer (escrow reservation) and
insert the order at `open`.  A missing user row would crash the handler before
any mutation, so it is a state no-op. -/
def fsm_order_finish (st : St) (tg : Nat) (title description : String)
    (amount : ℤ) (deadline_hours : Nat) (ad_link : Option String) : St :=
  match get_user st tg with
  | none => st
  | some u =>
    if u.balance < amount then st
    else
      let st1 := adjust_balance st tg (-amount)
      (create_order st1 tg title description amount deadline_hours ad_link).1

/-- `cb_executor_respond`: order must exist and be `open`; then
`add_response` (which deduplicates).  No check that the responder differs
from the order's customer. -/
def cb_executor_respond (st : St) (tg oid : Nat) : St :=
  match get_order st oid with
  | none => st
  | some o =>
    if o.status ≠ "open" then st
    else add_response st oid tg

/-- `cb_customer_approve`: caller must own the order and it must be `open`;
then `assign_executor`. -/
def cb_customer_approve (st : St) (tg oid ex : Nat) : St :=
  match get_order st oid with
  | none => st
  | some o =>
    if o.customer_tg_id ≠ tg then st
    else if o.status ≠ "open" then st
    else assign_executor st oid ex

/-! The confirmation code: `f"{secrets.randbelow(900000) + 100000}"`.
The random draw `secrets.randbelow(900000)` is modelled as an arbitrary
`r : Nat` reduced mod 900000; the resulting integer lies in
`[100000, 999999]`, so Python's `str` of it is exactly its six decimal
digits, which `padNum 6` (defined below with the ISO-timestamp machinery)
renders. -/

/-- The `w` low-order decimal digits of `n`, most significant first
(for `n < 10 ^ w` this is exactly the `w`-digit zero-padded rendering). -/
def padNum : Nat → Nat → List Char
  | 0, _ => []
  | w + 1, n => Nat.digitChar (n / 10 ^ w) :: padNum w (n % 10 ^ w)

/-- The code string generated by `cb_executor_deliver` from random draw `r`. -/
def genCode (r : Nat) : String :=
  ⟨padNum 6 (100000 + r % 900000)⟩

/-- `cb_executor_deliver`: caller must be the assigned executor, the order
`in_progress`, and the caller must have an email on file; then generate a code
and `mark_waiting_email_confirmation`.  (The SMTP send happens after the
state transition and does not roll it back.)  No collision check of the fresh
code against any pending code is performed. -/
def cb_executor_deliver (st : St) (tg oid r : Nat) : St :=
  match get_order st oid, get_user st tg with
  | some o, some u =>
    if o.assigned_executor_tg_id ≠ some tg then st
    else if o.status ≠ "in_progress" then st
    else if u.email = none then st
    else mark_waiting_email_confirmation st oid (genCode r)
  | _, _ => st

/-- The commit branch of `cb_executor_check_email`:
`complete_order_with_code` then `adjust_balance(tg, order["amount"])`.
The ghost ledger records the escrow release: credit to the worker, matching
debit of the customer's escrowed holdings. -/
def confirmCommit (st : St) (tg oid : Nat) (code : String) (o : OrderRow) : St :=
  let st1 := complete_order_with_code st oid code
  let st2 := adjust_balance st1 tg o.amount
  { st2 with applied := fun x =>
      st2.applied x + (if x = tg then o.amount else 0)
                    - (if x = o.customer_tg_id then o.amount else 0) }

/-- The candidate loop of `cb_executor_check_email`: try candidates in order,
commit on the first one that passes every check, ignore the rest. -/
def checkEmailScan (st : St) (tg : Nat) : List (Nat × String) → St
  | [] => st
  | (oid, code) :: rest =>
    match get_order st oid with
    | none => checkEmailScan st tg rest
    | some o =>
      if o.assigned_executor_tg_id ≠ some tg then checkEmailScan st tg rest
      else if o.status ≠ "waiting_email_confirmation" then checkEmailScan st tg rest
      else if is_code_used st code then checkEmailScan st tg rest
      else if o.confirm_code ≠ some code then checkEmailScan st tg rest
      else confirmCommit st tg oid code o

/-- `cb_executor_check_email`: requires the caller to exist with an email on
file; the candidate list (extracted from the IMAP inbox, filtered by sender)
is an input of the step. -/
def cb_executor_check_email (st : St) (tg : Nat) (cands : List (Nat × String)) : St :=
  match get_user st tg with
  | none => st
  | some u =>
    if u.email = none then st
    else checkEmailScan st tg cands

/-- The snapshot assignment `expired = storage.list_expired_confirmation_orders()`
at the top of one `refund_expired_orders` loop iteration. -/
def refund_scan (st : St) : St :=
  { st with refundQueue := list_expired_confirmation_orders st }

/-- One iteration of the `for order in expired` loop of
`refund_expired_orders`: credit the snapshot's customer with the snapshot's
amount and `mark_order_refunded` the snapshot's id.  (The `await
bot.send_message` that follows is the yield point separating iterations.) -/
def refund_process_one (st : St) : St :=
  match st.refundQueue with
  | [] => st
  | o :: rest =>
    let st1 := adjust_balance st o.customer_tg_id o.amount
    let st2 := mark_order_refunded st1 o.id
    { st2 with refundQueue := rest }

/-- `n` iterations of the refund loop body. -/
def drain : Nat → St → St
  | 0, st => st
  | n + 1, st => drain n (refund_process_one st)

/-- One full cycle of `refund_expired_orders` run without any interleaved
handler: the snapshot followed by processing every snapshotted order. -/
def refund_cycle (st : St) : St :=
  let st1 := refund_scan st
  drain st1.refundQueue.length st1

/-! ## Events and reachability -/

/-- One atomic step of the system (see the file header for why the
reconciliation loop contributes two separate events). -/
inductive Ev where
  | start (tg : Nat)
  | set_role (tg : Nat) (role : String)
  | set_email (tg : Nat) (email : String)
  | topup (tg : Nat)
  | create (tg : Nat) (title description : String) (amount : ℤ)
      (deadline_hours : Nat) (ad_link : Option String)
  | respond (tg oid : Nat)
  | approve (tg oid ex : Nat)
  | deliver (tg oid r : Nat)
  | check_email (tg : Nat) (cands : List (Nat × String))
  | refundScan
  | refundStep
  | tick (d : Nat)
  deriving Repr, DecidableEq

/-- Interpretation of events by the handlers. -/
def step (ev : Ev) (st : St) : St :=
  match ev with
  | .start tg => cmd_start st tg
  | .set_role tg role => cb_set_role st tg role
  | .set_email tg email => cmd_set_email st tg email
  | .topup tg => cb_wallet_topup st tg
  | .create tg title description amount dh ad_link =>
      fsm_order_finish st tg title description amount dh ad_link
  | .respond tg oid => cb_executor_respond st tg oid
  | .approve tg oid ex => cb_customer_approve st tg oid ex
  | .deliver tg oid r => cb_executor_deliver st tg oid r
  | .check_email tg cands => cb_executor_check_email st tg cands
  | .refundScan => refund_scan st
  | .refundStep => refund_process_one st
  | .tick d => { st with now := st.now + d }

/-- Run a list of events from a state. -/
def run (st : St) (evs : List Ev) : St :=
  evs.foldl (fun s e => step e s) st

/-- Reachable states of the system with the reconciliation loop freely
interleaved with the handlers (the source's actual semantics). -/
inductive Reach : St → Prop
  | init : Reach init
  | step (ev : Ev) {st : St} : Reach st → Reach (step ev st)

/-- Reachable states when every reconciliation cycle runs to completion
without interleaved handlers (the serialized regime the spec's §5 demands). -/
inductive SReach : St → Prop
  | init : SReach init
  | step (ev : Ev) {st : St} (h1 : ev ≠ Ev.refundScan) (h2 : ev ≠ Ev.refundStep) :
      SReach st → SReach (step ev st)
  | cycle {st : St} : SReach st → SReach (refund_cycle st)

/-! ## Observers -/

/-- The status of order `oid` in state `st`, if the order exists. -/
def statusOf (st : St) (oid : Nat) : Option String :=
  (get_order st oid).map OrderRow.status

/-- Balance of account `tg` (0 when no row exists, as for a fresh account). -/
def balanceOf (st : St) (tg : Nat) : ℤ :=
  match get_user st tg with
  | some u => u.balance
  | none => 0

/-- The five status values the code ever writes. -/
def allowedStatuses : List String :=
  ["open", "in_progress", "waiting_email_confirmation", "completed", "refunded"]

/-- A status from which no further transition is defined. -/
def isTerminal (s : String) : Prop :=
  s = "completed" ∨ s = "refunded"

/-- Escrow contribution of one order row to the reserve of account `tg`:
its amount when `tg` is the owning requester and the order is non-terminal. -/
def contrib (tg : Nat) (o : OrderRow) : ℤ :=
  if o.customer_tg_id = tg ∧ o.status ≠ "completed" ∧ o.status ≠ "refunded" then o.amount
  else 0

/-- Amount reserved in escrow for account `tg`'s non-terminal orders. -/
def pendingReserved (st : St) (tg : Nat) : ℤ :=
  (st.orders.map (contrib tg)).sum

/-- The confirm payout for order `oid` has happened: exactly the commit of
`complete_order_with_code` (paired atomically with the worker credit in
`confirmCommit`) inserts a `used_confirmation_codes` row for the order. -/
def confirmPaidOut (st : St) (oid : Nat) : Prop :=
  ∃ c, (c, oid) ∈ st.usedCodes

/-- The expire-refund payout for order `oid` has happened: exactly the commit
of `mark_order_refunded` (paired atomically with the requester credit in
`refund_process_one`) writes status `refunded`. -/
def refundPaidOut (st : St) (oid : Nat) : Prop :=
  statusOf st oid = some "refunded"

/-! ## Toolkit lemmas about the storage primitives -/

/-- A single confirmation candidate fails at least one of the five checks of
the `cb_executor_check_email` loop. -/
def FailsCheck (st : St) (tg : Nat) (p : Nat × String) : Prop :=
  match get_order st p.1 with
  | none => True
  | some o =>
      o.assigned_executor_tg_id ≠ some tg ∨ o.status ≠ "waiting_email_confirmation" ∨
      is_code_used st p.2 = true ∨ o.confirm_code ≠ some p.2

/-- A single confirmation candidate passes all five checks of the
`cb_executor_check_email` loop against order row `o`. -/
def PassesCheck (st : St) (tg : Nat) (oid : Nat) (code : String) (o : OrderRow) : Prop :=
  get_order st oid = some o ∧ o.assigned_executor_tg_id = some tg ∧
  o.status = "waiting_email_confirmation" ∧ is_code_used st code = false ∧
  o.confirm_code = some code

/-- Structural invariant of every reachable database state. -/
structure Inv (st : St) : Prop where
  users_nodup : (st.users.map UserRow.tg_id).Nodup
  orders_nodup : (st.orders.map OrderRow.id).Nodup
  orders_lt_next : ∀ o ∈ st.orders, o.id < st.nextOrderId
  statuses : ∀ o ∈ st.orders, o.status ∈ allowedStatuses
  customers_exist : ∀ o ∈ st.orders, (get_user st o.customer_tg_id).isSome
  codes_nodup : (st.usedCodes.map Prod.fst).Nodup
  used_oids_nodup : (st.usedCodes.map Prod.snd).Nodup
  used_terminal : ∀ p ∈ st.usedCodes, ∃ o ∈ st.orders, o.id = p.2 ∧ isTerminal o.status

/-- Escrow conservation in the holdings sense: for every account, balance plus
escrow reserved in its non-terminal orders equals the ghost ledger total. -/
def Conserve (st : St) : Prop :=
  ∀ tg, balanceOf st tg + pendingReserved st tg = st.applied tg

/-- Serialized-regime invariant: structural invariant, idle reconciliation
queue, every consumed code points at a `completed` order, and escrow
conservation. -/
structure SInv (st : St) : Prop where
  inv : Inv st
  queue_nil : st.refundQueue = []
  used_completed : ∀ p ∈ st.usedCodes, ∃ o ∈ st.orders, o.id = p.2 ∧ o.status = "completed"
  conserve : Conserve st

/-- Invariant holding throughout one reconciliation cycle: the tail of the
snapshot still points at live rows that are `waiting_email_confirmation`. -/
structure MidInv (st : St) : Prop where
  inv : Inv st
  used_completed : ∀ p ∈ st.usedCodes, ∃ o ∈ st.orders, o.id = p.2 ∧ o.status = "completed"
  conserve : Conserve st
  queue_good : ∀ q ∈ st.refundQueue, ∃ o ∈ st.orders, o.id = q.id ∧
    o.customer_tg_id = q.customer_tg_id ∧ o.amount = q.amount ∧
    o.status = "waiting_email_confirmation"
  queue_nodup : (st.refundQueue.map OrderRow.id).Nodup

/-- The expire-refund precondition of §4.1: order at `waiting_email_confirmation`
with an issued confirmation deadline that has passed. -/
def Expired (st : St) (o : OrderRow) : Prop :=
  o.status = "waiting_email_confirmation" ∧ ∃ d, o.confirm_deadline_at = some d ∧ d ≤ st.now

/-- One arrow (or staying put) of the §4.1 state machine
`open → in_progress → waiting_confirmation → {completed | refunded}`. -/
def StatusStep (s s' : String) : Prop :=
  s' = s ∨ (s = "open" ∧ s' = "in_progress")
    ∨ (s = "in_progress" ∧ s' = "waiting_email_confirmation")
    ∨ (s = "waiting_email_confirmation" ∧ (s' = "completed" ∨ s' = "refunded"))

/-- Every order common to two states moved along at most one §4.1 arrow. -/
def OrdersAdvance (st st' : St) : Prop :=
  ∀ o ∈ st.orders, ∀ o' ∈ st'.orders, o'.id = o.id → StatusStep o.status o'.status

/-! ## ISO-8601 timestamps (claim C10)

`Storage.now_iso` is `datetime.now(timezone.utc).isoformat()`.  For an aware
UTC datetime Python renders `YYYY-MM-DDTHH:MM:SS.ffffff+00:00` with every
field zero-padded to fixed width, and omits the entire `.ffffff` part when
`microsecond == 0`.  `PyDateTime` models the datetime value, `isoformat`
models the rendered text, and `dtKey` is chronological order flattened into
one mixed-radix integer (all fields fit their radix under `ValidDT`). -/

structure PyDateTime where
  year : Nat
  month : Nat
  day : Nat
  hour : Nat
  minute : Nat
  second : Nat
  microsecond : Nat
  deriving Repr, DecidableEq

/-- Field ranges of a `datetime.datetime` value (year below 10000). -/
def ValidDT (t : PyDateTime) : Prop :=
  t.year < 10000 ∧ 1 ≤ t.month ∧ t.month ≤ 12 ∧ 1 ≤ t.day ∧ t.day ≤ 31 ∧
  t.hour < 24 ∧ t.minute < 60 ∧ t.second < 60 ∧ t.microsecond < 1000000

instance (t : PyDateTime) : Decidable (ValidDT t) := by
  unfold ValidDT
  infer_instance

/-- The `+00:00` UTC-offset suffix of an aware UTC `isoformat`. -/
def utcSuffix : List Char := ['+', '0', '0', ':', '0', '0']

/-- The characters of `t.isoformat()` for an aware UTC datetime `t`. -/
def isoChars (t : PyDateTime) : List Char :=
  padNum 4 t.year ++ '-' :: (padNum 2 t.month ++ '-' :: (padNum 2 t.day ++ 'T' ::
    (padNum 2 t.hour ++ ':' :: (padNum 2 t.minute ++ ':' :: (padNum 2 t.second ++
      ((if t.microsecond = 0 then [] else '.' :: padNum 6 t.microsecond) ++ utcSuffix))))))

/-- `datetime.isoformat()` of an aware UTC datetime. -/
def isoformat (t : PyDateTime) : String :=
  ⟨isoChars t⟩

/-- Chronological order flattened into one mixed-radix integer. -/
def dtKey (t : PyDateTime) : Nat :=
  (((((t.year * 100 + t.month) * 100 + t.day) * 100 + t.hour) * 100 + t.minute) * 100
    + t.second) * 1000000 + t.microsecond

/-- Chronological (lexicographic field-wise) order on datetimes. -/
def fieldLex (t₁ t₂ : PyDateTime) : Prop :=
  t₁.year < t₂.year ∨ (t₁.year = t₂.year ∧ (t₁.month < t₂.month ∨ (t₁.month = t₂.month ∧
    (t₁.day < t₂.day ∨ (t₁.day = t₂.day ∧ (t₁.hour < t₂.hour ∨ (t₁.hour = t₂.hour ∧
      (t₁.minute < t₂.minute ∨ (t₁.minute = t₂.minute ∧ (t₁.second < t₂.second ∨
        (t₁.second = t₂.second ∧ t₁.microsecond < t₂.microsecond)))))))))))

/-! ## Concrete executions used as witnesses and counterexamples

`racePrefix` drives two funded orders through delivery, lets both
confirmation deadlines expire, and then replays the exact interleaving the
source allows: `refund_expired_orders` snapshots both orders and refunds the
first; during its `await bot.send_message` yield the executor's
`check_email` handler confirms the second order (still
`waiting_email_confirmation`, valid unused code); the loop then resumes and
refunds the second order from its stale snapshot row. -/

def racePrefix : List Ev :=
  [ .start 1, .topup 1, .start 2, .set_email 2 "w@x",
    .create 1 "t1" "d1" 300 48 none,
    .create 1 "t2" "d2" 300 48 none,
    .respond 2 1, .respond 2 2,
    .approve 1 1 2, .approve 1 2 2,
    .deliver 2 1 0, .deliver 2 2 23456,
    .tick 25,
    .refundScan, .refundStep,
    .check_email 2 [(2, "123456")] ]

/-- State right after the interleaved confirm: order 2 is `completed`, the
worker has been credited, and order 2's stale snapshot is still queued. -/
def raceMid : St := run init racePrefix

/-- State after the resumed loop iteration refunds order 2 from the stale
snapshot: both terminal payouts have happened for order 2. -/
def raceSt : St := step Ev.refundStep raceMid

/-- A serialized honest flow: fund, create, apply, assign, deliver, confirm. -/
def serialPre : List Ev :=
  [ .start 1, .topup 1, .start 2, .set_email 2 "w@x",
    .create 1 "t1" "d1" 300 48 none, .respond 2 1, .approve 1 1 2, .deliver 2 1 0 ]

/-- The state reached by `serialPre` (order 1 waiting for its code). -/
def c3st : St := run init serialPre

/-- The order row of order 1 in `c3st`. -/
def c3o : OrderRow :=
  { id := 1, customer_tg_id := 1, assigned_executor_tg_id := some 2,
    title := "t1", description := "d1", amount := 300, ad_link := none,
    status := "waiting_email_confirmation", deadline_at := 48,
    confirm_code := some "100000", confirm_deadline_at := some 24,
    created_at := 0, updated_at := 0 }

/-- The user row of the executor in `c3st`. -/
def c3u : UserRow := { tg_id := 2, role := none, balance := 0, email := some "w@x" }

/-- `serialPre` followed by the successful email confirmation. -/
def serialTrace : List Ev := serialPre ++ [ .check_email 2 [(1, "100000")] ]

/-- The completed serialized flow. -/
def serialSt : St := run init serialTrace

/-- `serialPre` with the clock advanced past order 1's confirmation deadline. -/
def expSt : St := run init (serialPre ++ [ .tick 25 ])

/-- Two funded orders, order 1 pending with code `"100000"`, order 2 still
`in_progress`: the state in which a second `deliver` draws a colliding code. -/
def c8Pre : List Ev :=
  [ .start 1, .topup 1, .topup 1, .start 2, .set_email 2 "w@x",
    .create 1 "t1" "d1" 300 48 none, .create 1 "t2" "d2" 300 48 none,
    .respond 2 1, .respond 2 2, .approve 1 1 2, .approve 1 2 2, .deliver 2 1 0 ]

/-- The state reached by `c8Pre`. -/
def c8St : St := run init c8Pre

/-- A requester pressing the respond button on their own open order. -/
def c9St : St :=
  run init [ .start 1, .topup 1, .create 1 "t" "d" 300 48 none, .respond 1 1 ]

/-- The order row of order 2 in `c8St` (still `in_progress`). -/
def c8o2 : OrderRow :=
  { id := 2, customer_tg_id := 1, assigned_executor_tg_id := some 2,
    title := "t2", description := "d2", amount := 300, ad_link := none,
    status := "in_progress", deadline_at := 48, confirm_code := none,
    confirm_deadline_at := none, created_at := 0, updated_at := 0 }

theorem find?_map_keyed {α : Type} (l : List α) (f : α → α) (p : α → Bool)
    (hp : ∀ a, p (f a) = p a) :
    (l.map f).find? p = (l.find? p).map f := by
  rw [List.find?_map]
  have : (p ∘ f) = p := funext hp
  rw [this]

theorem map_eq_self_of_find?_none {α : Type} (l : List α) (f : α → α) (p : α → Bool)
    (hnone : l.find? p = none) (hf : ∀ a, p a = false → f a = a) :
    l.map f = l := by
  have h := List.find?_eq_none.mp hnone
  calc l.map f = l.map id := by
        apply List.map_congr_left
        intro a ha
        have : ¬ p a = true := h a ha
        exact hf a (by simpa using this)
    _ = l := List.map_id l

theorem sum_map_update_of_find? {α : Type} (key : α → Nat) (c : α → ℤ) (g : α → α)
    (k : Nat) :
    ∀ (l : List α), (l.map key).Nodup →
    ∀ a₀, l.find? (fun a => key a == k) = some a₀ →
    ((l.map (fun a => if key a = k then g a else a)).map c).sum
      = (l.map c).sum + (c (g a₀) - c a₀) := by
  intro l
  induction l with
  | nil => intro _ a₀ h; simp [List.find?] at h
  | cons a t ih =>
    intro hnd a₀ h
    rw [List.map_cons, List.nodup_cons] at hnd
    by_cases hk : key a = k
    · have ha₀ : a₀ = a := by
        rw [List.find?_cons_of_pos _ (by simpa using hk)] at h
        exact (Option.some_inj.mp h).symm
      subst ha₀
      have htid : t.map (fun x => if key x = k then g x else x) = t := by
        apply map_eq_self_of_find?_none _ _ (fun x => key x == k)
        · rw [List.find?_eq_none]
          intro x hx
          simp only [beq_iff_eq]
          intro hxk
          have hmem : key a₀ ∈ t.map key := by
            rw [hk, ← hxk]
            exact List.mem_map_of_mem key hx
          exact hnd.1 hmem
        · intro x hx
          simp only [beq_eq_false_iff_ne, ne_eq] at hx
          simp [hx]
      simp only [List.map_cons, if_pos hk, htid, List.sum_cons]
      ring
    · have h' : t.find? (fun x => key x == k) = some a₀ := by
        rwa [List.find?_cons_of_neg _ (by simpa using hk)] at h
      simp only [List.map_cons, if_neg hk, List.sum_cons, ih hnd.2 a₀ h']
      ring

theorem sum_map_update_of_find?_none {α : Type} (key : α → Nat) (c : α → ℤ) (g : α → α)
    (k : Nat) (l : List α) (h : l.find? (fun a => key a == k) = none) :
    ((l.map (fun a => if key a = k then g a else a)).map c).sum = (l.map c).sum := by
  have heq := map_eq_self_of_find?_none l (fun a => if key a = k then g a else a)
      (fun a => key a == k) h ?hf
  · rw [heq]
  case hf =>
    intro a ha
    simp only [beq_eq_false_iff_ne, ne_eq] at ha
    simp [ha]

theorem get_user_map_users (l : List UserRow) (f : UserRow → UserRow)
    (hf : ∀ u, (f u).tg_id = u.tg_id) (tg : Nat) :
    (l.map f).find? (fun u => u.tg_id == tg) = (l.find? (fun u => u.tg_id == tg)).map f := by
  apply find?_map_keyed
  intro u
  simp [hf u]

theorem get_order_map_orders (l : List OrderRow) (f : OrderRow → OrderRow)
    (hf : ∀ o, (f o).id = o.id) (oid : Nat) :
    (l.map f).find? (fun o => o.id == oid) = (l.find? (fun o => o.id == oid)).map f := by
  apply find?_map_keyed
  intro o
  simp [hf o]

theorem get_user_tg_id {st : St} {tg : Nat} {u : UserRow} (h : get_user st tg = some u) :
    u.tg_id = tg := by
  have := List.find?_some h
  simpa using this

theorem get_order_id {st : St} {oid : Nat} {o : OrderRow} (h : get_order st oid = some o) :
    o.id = oid := by
  have := List.find?_some h
  simpa using this

theorem get_user_mem {st : St} {tg : Nat} {u : UserRow} (h : get_user st tg = some u) :
    u ∈ st.users :=
  List.mem_of_find?_eq_some h

theorem get_order_mem {st : St} {oid : Nat} {o : OrderRow} (h : get_order st oid = some o) :
    o ∈ st.orders :=
  List.mem_of_find?_eq_some h

theorem balanceOf_adjust_balance (st : St) (tg : Nat) (d : ℤ) (tg' : Nat) :
    balanceOf (adjust_balance st tg d) tg'
      = balanceOf st tg' + (if tg' = tg ∧ (get_user st tg').isSome then d else 0) := by
  unfold balanceOf
  have hmap : get_user (adjust_balance st tg d) tg'
      = (get_user st tg').map (fun u => if u.tg_id = tg then { u with balance := u.balance + d } else u) := by
    unfold get_user adjust_balance
    exact get_user_map_users _ _ (by intro u; by_cases h : u.tg_id = tg <;> simp [h]) tg'
  rw [hmap]
  cases h : get_user st tg' with
  | none => simp
  | some u =>
    have htg : u.tg_id = tg' := get_user_tg_id h
    by_cases he : tg' = tg
    · simp [htg, he]
    · simp [htg, he]

theorem get_user_adjust_balance_isSome (st : St) (tg : Nat) (d : ℤ) (tg' : Nat) :
    (get_user (adjust_balance st tg d) tg').isSome = (get_user st tg').isSome := by
  have hmap : get_user (adjust_balance st tg d) tg'
      = (get_user st tg').map (fun u => if u.tg_id = tg then { u with balance := u.balance + d } else u) := by
    unfold get_user adjust_balance
    exact get_user_map_users _ _ (by intro u; by_cases h : u.tg_id = tg <;> simp [h]) tg'
  rw [hmap]
  cases get_user st tg' <;> simp

theorem checkEmailScan_cons (st : St) (tg : Nat) (oid : Nat) (code : String)
    (rest : List (Nat × String)) :
    checkEmailScan st tg ((oid, code) :: rest) =
      match get_order st oid with
      | none => checkEmailScan st tg rest
      | some o =>
          if o.assigned_executor_tg_id ≠ some tg then checkEmailScan st tg rest
          else if o.status ≠ "waiting_email_confirmation" then checkEmailScan st tg rest
          else if is_code_used st code then checkEmailScan st tg rest
          else if o.confirm_code ≠ some code then checkEmailScan st tg rest
          else confirmCommit st tg oid code o := rfl

theorem checkEmailScan_of_fails (st : St) (tg : Nat) (oid : Nat) (code : String)
    (rest : List (Nat × String)) (h : FailsCheck st tg (oid, code)) :
    checkEmailScan st tg ((oid, code) :: rest) = checkEmailScan st tg rest := by
  rw [checkEmailScan_cons]
  unfold FailsCheck at h
  cases hgo : get_order st oid with
  | none => rfl
  | some o =>
    rw [hgo] at h
    simp only at h ⊢
    rcases h with h | h | h | h
    · rw [if_pos h]
    · by_cases h1 : o.assigned_executor_tg_id ≠ some tg
      · rw [if_pos h1]
      · rw [if_neg h1, if_pos h]
    · by_cases h1 : o.assigned_executor_tg_id ≠ some tg
      · rw [if_pos h1]
      · rw [if_neg h1]
        by_cases h2 : o.status ≠ "waiting_email_confirmation"
        · rw [if_pos h2]
        · rw [if_neg h2, if_pos h]
    · by_cases h1 : o.assigned_executor_tg_id ≠ some tg
      · rw [if_pos h1]
      · rw [if_neg h1]
        by_cases h2 : o.status ≠ "waiting_email_confirmation"
        · rw [if_pos h2]
        · rw [if_neg h2]
          by_cases h3 : is_code_used st code = true
          · rw [if_pos h3]
          · rw [if_neg h3, if_pos h]

theorem checkEmailScan_of_passes (st : St) (tg : Nat) (oid : Nat) (code : String)
    (o : OrderRow) (rest : List (Nat × String)) (h : PassesCheck st tg oid code o) :
    checkEmailScan st tg ((oid, code) :: rest) = confirmCommit st tg oid code o := by
  obtain ⟨hgo, h1, h2, h3, h4⟩ := h
  rw [checkEmailScan_cons, hgo]
  simp only
  rw [if_neg (by simp [h1]), if_neg (by simp [h2]), if_neg (by simp [h3]),
      if_neg (by simp [h4])]

theorem checkEmailScan_all_fail (st : St) (tg : Nat) :
    ∀ cands : List (Nat × String), (∀ p ∈ cands, FailsCheck st tg p) →
    checkEmailScan st tg cands = st := by
  intro cands
  induction cands with
  | nil => intro _; rfl
  | cons p rest ih =>
    intro h
    obtain ⟨oid, code⟩ := p
    rw [checkEmailScan_of_fails st tg oid code rest (h _ (by simp))]
    exact ih (fun q hq => h q (by simp [hq]))

theorem checkEmailScan_cases (st : St) (tg : Nat) :
    ∀ cands : List (Nat × String), checkEmailScan st tg cands = st ∨
      ∃ oid code o, PassesCheck st tg oid code o ∧
        checkEmailScan st tg cands = confirmCommit st tg oid code o := by
  intro cands
  induction cands with
  | nil => left; rfl
  | cons p rest ih =>
    obtain ⟨oid, code⟩ := p
    by_cases hfail : FailsCheck st tg (oid, code)
    · rw [checkEmailScan_of_fails st tg oid code rest hfail]
      exact ih
    · unfold FailsCheck at hfail
      cases hgo : get_order st oid with
      | none => rw [hgo] at hfail; exact absurd trivial hfail
      | some o =>
        rw [hgo] at hfail
        simp only at hfail
        have h1 : o.assigned_executor_tg_id = some tg := by
          by_contra hc; exact hfail (Or.inl hc)
        have h2 : o.status = "waiting_email_confirmation" := by
          by_contra hc; exact hfail (Or.inr (Or.inl hc))
        have h3 : is_code_used st code = false := by
          cases hic : is_code_used st code
          · rfl
          · exact absurd (Or.inr (Or.inr (Or.inl hic))) hfail
        have h4 : o.confirm_code = some code := by
          by_contra hc; exact hfail (Or.inr (Or.inr (Or.inr hc)))
        have hpass : PassesCheck st tg oid code o := ⟨hgo, h1, h2, h3, h4⟩
        right
        exact ⟨oid, code, o, hpass, checkEmailScan_of_passes st tg oid code o rest hpass⟩

/-- `cb_executor_check_email` either leaves the state unchanged or commits
exactly one passing candidate. -/
theorem cb_executor_check_email_cases (st : St) (tg : Nat) (cands : List (Nat × String)) :
    cb_executor_check_email st tg cands = st ∨
      ((get_user st tg).isSome ∧ ∃ oid code o, PassesCheck st tg oid code o ∧
        cb_executor_check_email st tg cands = confirmCommit st tg oid code o) := by
  cases hu : get_user st tg with
  | none => left; simp [cb_executor_check_email, hu]
  | some u =>
    by_cases he : u.email = none
    · left; simp [cb_executor_check_email, hu, he]
    · have hr : cb_executor_check_email st tg cands = checkEmailScan st tg cands := by
        simp [cb_executor_check_email, hu, he]
      rw [hr]
      rcases checkEmailScan_cases st tg cands with hc | hc
      · left; exact hc
      · right; exact ⟨by simp [hu], hc⟩

theorem inv_init : Inv init := by
  constructor <;> simp [init]

theorem isSome_get_user_users_map (st : St) (f : UserRow → UserRow)
    (hf : ∀ u, (f u).tg_id = u.tg_id) (tg : Nat) :
    ((st.users.map f).find? (fun u => u.tg_id == tg)).isSome
      = (get_user st tg).isSome := by
  rw [get_user_map_users _ _ hf]
  unfold get_user
  cases st.users.find? (fun u => u.tg_id == tg) <;> simp

theorem inv_users_update (st : St) (f : UserRow → UserRow)
    (hf : ∀ u, (f u).tg_id = u.tg_id) (h : Inv st) :
    Inv { st with users := st.users.map f } := by
  have hmapkey : (st.users.map f).map UserRow.tg_id = st.users.map UserRow.tg_id := by
    rw [List.map_map]
    apply List.map_congr_left
    intro u _
    exact hf u
  constructor
  · show ((st.users.map f).map UserRow.tg_id).Nodup
    rw [hmapkey]; exact h.users_nodup
  · exact h.orders_nodup
  · exact h.orders_lt_next
  · exact h.statuses
  · intro o ho
    show ((st.users.map f).find? (fun u => u.tg_id == o.customer_tg_id)).isSome = true
    rw [isSome_get_user_users_map st f hf]
    exact h.customers_exist o ho
  · exact h.codes_nodup
  · exact h.used_oids_nodup
  · exact h.used_terminal

theorem inv_adjust_balance (st : St) (tg : Nat) (d : ℤ) (h : Inv st) :
    Inv (adjust_balance st tg d) :=
  inv_users_update st _ (by intro u; by_cases hc : u.tg_id = tg <;> simp [hc]) h

theorem inv_set_user_role (st : St) (tg : Nat) (r : String) (h : Inv st) :
    Inv (set_user_role st tg r) :=
  inv_users_update st _ (by intro u; by_cases hc : u.tg_id = tg <;> simp [hc]) h

theorem inv_set_user_email (st : St) (tg : Nat) (e : String) (h : Inv st) :
    Inv (set_user_email st tg e) :=
  inv_users_update st _ (by intro u; by_cases hc : u.tg_id = tg <;> simp [hc]) h

theorem get_user_append_isSome (st : St) (x : UserRow) (tg : Nat)
    (h : (get_user st tg).isSome) :
    ((st.users ++ [x]).find? (fun u => u.tg_id == tg)).isSome := by
  rw [List.find?_append]
  unfold get_user at h
  cases hf : st.users.find? (fun u => u.tg_id == tg) with
  | none => rw [hf] at h; simp at h
  | some u => simp

theorem inv_get_or_create_user (st : St) (tg : Nat) (h : Inv st) :
    Inv (get_or_create_user st tg) := by
  unfold get_or_create_user
  by_cases hs : (get_user st tg).isSome
  · rw [if_pos hs]; exact h
  · rw [if_neg hs]
    have htg_new : tg ∉ st.users.map UserRow.tg_id := by
      intro hmem
      obtain ⟨u, hu, hutg⟩ := List.mem_map.mp hmem
      have : st.users.find? (fun v => v.tg_id == tg) ≠ none := by
        intro hnone
        have := List.find?_eq_none.mp hnone u hu
        simp [hutg] at this
      unfold get_user at hs
      cases hf : st.users.find? (fun v => v.tg_id == tg) with
      | none => exact this hf
      | some v => rw [hf] at hs; simp at hs
    constructor
    · rw [List.map_append]
      simp only [List.map_cons, List.map_nil]
      rw [List.nodup_append]
      exact ⟨h.users_nodup, List.nodup_singleton _, by simpa using htg_new⟩
    · exact h.orders_nodup
    · exact h.orders_lt_next
    · exact h.statuses
    · intro o ho
      exact get_user_append_isSome st _ _ (h.customers_exist o ho)
    · exact h.codes_nodup
    · exact h.used_oids_nodup
    · exact h.used_terminal

theorem inv_orders_update (st : St) (oid : Nat) (g : OrderRow → OrderRow)
    (hid : ∀ o, (g o).id = o.id) (hcust : ∀ o, (g o).customer_tg_id = o.customer_tg_id)
    (hstat : ∀ o ∈ st.orders, o.id = oid → (g o).status ∈ allowedStatuses)
    (hterm : ∀ o ∈ st.orders, o.id = oid → isTerminal o.status → isTerminal (g o).status)
    (h : Inv st) :
    Inv { st with orders := st.orders.map (fun o => if o.id = oid then g o else o) } := by
  have hkey : ∀ o : OrderRow, ((fun o => if o.id = oid then g o else o) o).id = o.id := by
    intro o; by_cases hc : o.id = oid <;> simp [hc, hid]
  have hmapkey : (st.orders.map (fun o => if o.id = oid then g o else o)).map OrderRow.id
      = st.orders.map OrderRow.id := by
    rw [List.map_map]
    apply List.map_congr_left
    intro o _
    exact hkey o
  constructor
  · exact h.users_nodup
  · show ((st.orders.map _).map OrderRow.id).Nodup
    rw [hmapkey]; exact h.orders_nodup
  · intro o' ho'
    obtain ⟨o, ho, rfl⟩ := List.mem_map.mp ho'
    have : ((fun o => if o.id = oid then g o else o) o).id = o.id := hkey o
    rw [this]
    exact h.orders_lt_next o ho
  · intro o' ho'
    obtain ⟨o, ho, rfl⟩ := List.mem_map.mp ho'
    by_cases hc : o.id = oid
    · simp only [hc, if_pos]
      exact hstat o ho hc
    · simp only [hc, if_neg, ite_false]
      exact h.statuses o ho
  · intro o' ho'
    obtain ⟨o, ho, rfl⟩ := List.mem_map.mp ho'
    have hc : ((fun o => if o.id = oid then g o else o) o).customer_tg_id = o.customer_tg_id := by
      by_cases hc : o.id = oid <;> simp [hc, hcust]
    rw [hc]
    exact h.customers_exist o ho
  · exact h.codes_nodup
  · exact h.used_oids_nodup
  · intro p hp
    obtain ⟨o, ho, hoid, hterm'⟩ := h.used_terminal p hp
    refine ⟨(fun o => if o.id = oid then g o else o) o, List.mem_map_of_mem _ ho, ?_, ?_⟩
    · rw [hkey o, hoid]
    · by_cases hc : o.id = oid
      · simp only [hc, if_pos]
        exact hterm o ho hc hterm'
      · simp only [hc, if_neg, ite_false]
        exact hterm'

theorem inv_create_order (st : St) (tg : Nat) (title description : String)
    (amount : ℤ) (dh : Nat) (ad_link : Option String)
    (hexists : (get_user st tg).isSome) (h : Inv st) :
    Inv (create_order st tg title description amount dh ad_link).1 := by
  unfold create_order
  simp only
  have hnew : st.nextOrderId ∉ st.orders.map OrderRow.id := by
    intro hmem
    obtain ⟨o, ho, hoid⟩ := List.mem_map.mp hmem
    exact absurd hoid (Nat.ne_of_lt (h.orders_lt_next o ho))
  constructor
  · exact h.users_nodup
  · rw [List.map_append]
    simp only [List.map_cons, List.map_nil]
    rw [List.nodup_append]
    exact ⟨h.orders_nodup, List.nodup_singleton _, by simpa using hnew⟩
  · intro o ho
    rcases List.mem_append.mp ho with ho | ho
    · exact Nat.lt_succ_of_lt (h.orders_lt_next o ho)
    · simp at ho
      rw [ho]
      exact Nat.lt_succ_self _
  · intro o ho
    rcases List.mem_append.mp ho with ho | ho
    · exact h.statuses o ho
    · simp at ho
      rw [ho]
      simp [allowedStatuses]
  · intro o ho
    rcases List.mem_append.mp ho with ho | ho
    · exact h.customers_exist o ho
    · simp at ho
      rw [ho]
      exact hexists
  · exact h.codes_nodup
  · exact h.used_oids_nodup
  · intro p hp
    obtain ⟨o, ho, hoid, hterm⟩ := h.used_terminal p hp
    exact ⟨o, List.mem_append_left _ ho, hoid, hterm⟩

theorem inv_fsm_order_finish (st : St) (tg : Nat) (title description : String)
    (amount : ℤ) (dh : Nat) (ad_link : Option String) (h : Inv st) :
    Inv (fsm_order_finish st tg title description amount dh ad_link) := by
  unfold fsm_order_finish
  cases hu : get_user st tg with
  | none => exact h
  | some u =>
    by_cases hb : u.balance < amount
    · simp only [if_pos hb]
      exact h
    · simp only [if_neg hb]
      apply inv_create_order
      · rw [get_user_adjust_balance_isSome]
        simp [hu]
      · exact inv_adjust_balance st tg (-amount) h

theorem inv_add_response (st : St) (oid tg : Nat) (h : Inv st) :
    Inv (add_response st oid tg) := by
  unfold add_response
  by_cases hm : (oid, tg) ∈ st.responses
  · rw [if_pos hm]; exact h
  · rw [if_neg hm]
    constructor
    · exact h.users_nodup
    · exact h.orders_nodup
    · exact h.orders_lt_next
    · exact h.statuses
    · exact h.customers_exist
    · exact h.codes_nodup
    · exact h.used_oids_nodup
    · exact h.used_terminal

theorem inv_cb_executor_respond (st : St) (tg oid : Nat) (h : Inv st) :
    Inv (cb_executor_respond st tg oid) := by
  unfold cb_executor_respond
  cases get_order st oid with
  | none => exact h
  | some o =>
    by_cases hs : o.status ≠ "open"
    · simp only [if_pos hs]; exact h
    · simp only [if_neg hs]; exact inv_add_response st oid tg h

theorem no_terminal_at_of_get_order (st : St) (oid : Nat) (o₀ : OrderRow)
    (hget : get_order st oid = some o₀) (hstat : ¬ isTerminal o₀.status)
    (hnd : (st.orders.map OrderRow.id).Nodup) :
    ∀ o ∈ st.orders, o.id = oid → isTerminal o.status → False := by
  intro o ho hoid hterm
  have heq : o = o₀ :=
    List.inj_on_of_nodup_map hnd ho (get_order_mem hget)
      (by rw [hoid, get_order_id hget])
  rw [heq] at hterm
  exact hstat hterm

theorem inv_cb_customer_approve (st : St) (tg oid ex : Nat) (h : Inv st) :
    Inv (cb_customer_approve st tg oid ex) := by
  unfold cb_customer_approve
  cases hgo : get_order st oid with
  | none => exact h
  | some o =>
    by_cases hc : o.customer_tg_id ≠ tg
    · simp only [if_pos hc]; exact h
    · simp only [if_neg hc]
      by_cases hs : o.status ≠ "open"
      · simp only [if_pos hs]; exact h
      · simp only [if_neg hs]
        push_neg at hs
        apply inv_orders_update st oid _ (by intro o'; rfl) (by intro o'; rfl)
        · intro o' _ _
          simp [allowedStatuses]
        · intro o' ho' hoid hterm
          exact absurd hterm
            (fun ht => no_terminal_at_of_get_order st oid o hgo
              (by rw [hs]; intro hx; rcases hx with hx | hx <;> simp at hx)
              h.orders_nodup o' ho' hoid ht)
        · exact h

theorem inv_cb_executor_deliver (st : St) (tg oid r : Nat) (h : Inv st) :
    Inv (cb_executor_deliver st tg oid r) := by
  unfold cb_executor_deliver
  cases hgo : get_order st oid with
  | none => exact h
  | some o =>
    cases hgu : get_user st tg with
    | none => exact h
    | some u =>
      by_cases h1 : o.assigned_executor_tg_id ≠ some tg
      · simp only [if_pos h1]; exact h
      · simp only [if_neg h1]
        by_cases h2 : o.status ≠ "in_progress"
        · simp only [if_pos h2]; exact h
        · simp only [if_neg h2]
          push_neg at h2
          by_cases h3 : u.email = none
          · simp only [if_pos h3]; exact h
          · simp only [if_neg h3]
            unfold mark_waiting_email_confirmation
            apply inv_orders_update st oid _ (by intro o'; rfl) (by intro o'; rfl)
            · intro o' _ _
              simp [allowedStatuses]
            · intro o' ho' hoid hterm
              exact absurd hterm
                (fun ht => no_terminal_at_of_get_order st oid o hgo
                  (by rw [h2]; intro hx; rcases hx with hx | hx <;> simp at hx)
                  h.orders_nodup o' ho' hoid ht)
            · exact h

theorem inv_confirmCommit (st : St) (tg oid : Nat) (code : String) (o : OrderRow)
    (hpass : PassesCheck st tg oid code o) (h : Inv st) :
    Inv (confirmCommit st tg oid code o) := by
  obtain ⟨hgo, _, hwait, hunused, _⟩ := hpass
  have hcode_new : ∀ p ∈ st.usedCodes, p.1 ≠ code := by
    intro p hp
    unfold is_code_used at hunused
    simp only [List.any_eq_false, beq_iff_eq] at hunused
    exact hunused p hp
  have hoid_new : ∀ p ∈ st.usedCodes, p.2 ≠ oid := by
    intro p hp hpo
    obtain ⟨o', ho', hoid', hterm'⟩ := h.used_terminal p hp
    have heq : o' = o :=
      List.inj_on_of_nodup_map h.orders_nodup ho' (get_order_mem hgo)
        (by rw [hoid', hpo, get_order_id hgo])
    rw [heq, hwait] at hterm'
    rcases hterm' with ht | ht <;> simp at ht
  have hkey : ∀ o' : OrderRow,
      ((fun o' => if o'.id = oid then { o' with status := "completed", updated_at := st.now } else o') o').id = o'.id := by
    intro o'; by_cases hc : o'.id = oid <;> simp [hc]
  have h1 : Inv (complete_order_with_code st oid code) := by
    unfold complete_order_with_code
    have hmapkey : (st.orders.map (fun o' => if o'.id = oid then { o' with status := "completed", updated_at := st.now } else o')).map OrderRow.id
        = st.orders.map OrderRow.id := by
      rw [List.map_map]
      apply List.map_congr_left
      intro o' _
      exact hkey o'
    constructor
    · exact h.users_nodup
    · show ((st.orders.map _).map OrderRow.id).Nodup
      rw [hmapkey]; exact h.orders_nodup
    · intro o' ho'
      obtain ⟨o'', ho'', rfl⟩ := List.mem_map.mp ho'
      rw [hkey o'']
      exact h.orders_lt_next o'' ho''
    · intro o' ho'
      obtain ⟨o'', ho'', rfl⟩ := List.mem_map.mp ho'
      by_cases hc : o''.id = oid
      · simp only [hc, if_pos]
        simp [allowedStatuses]
      · simp only [hc, if_neg, ite_false]
        exact h.statuses o'' ho''
    · intro o' ho'
      obtain ⟨o'', ho'', rfl⟩ := List.mem_map.mp ho'
      have hcust : ((fun o' => if o'.id = oid then { o' with status := "completed", updated_at := st.now } else o') o'').customer_tg_id = o''.customer_tg_id := by
        by_cases hc : o''.id = oid <;> simp [hc]
      rw [hcust]
      exact h.customers_exist o'' ho''
    · rw [List.map_append]
      simp only [List.map_cons, List.map_nil]
      rw [List.nodup_append]
      refine ⟨h.codes_nodup, List.nodup_singleton _, ?_⟩
      intro c hc
      simp only [List.mem_singleton]
      obtain ⟨p, hp, rfl⟩ := List.mem_map.mp hc
      exact hcode_new p hp
    · rw [List.map_append]
      simp only [List.map_cons, List.map_nil]
      rw [List.nodup_append]
      refine ⟨h.used_oids_nodup, List.nodup_singleton _, ?_⟩
      intro i hi
      simp only [List.mem_singleton]
      obtain ⟨p, hp, rfl⟩ := List.mem_map.mp hi
      exact hoid_new p hp
    · intro p hp
      rcases List.mem_append.mp hp with hp | hp
      · obtain ⟨o', ho', hoid', hterm'⟩ := h.used_terminal p hp
        refine ⟨_, List.mem_map_of_mem _ ho', ?_, ?_⟩
        · rw [hkey o', hoid']
        · by_cases hc : o'.id = oid
          · simp only [hc, if_pos]
            left; rfl
          · simp only [hc, if_neg, ite_false]
            exact hterm'
      · simp only [List.mem_singleton] at hp
        subst hp
        refine ⟨_, List.mem_map_of_mem _ (get_order_mem hgo), ?_, ?_⟩
        · simp [get_order_id hgo]
        · simp only [get_order_id hgo, if_pos]
          left; rfl
  have h2 : Inv (adjust_balance (complete_order_with_code st oid code) tg o.amount) :=
    inv_adjust_balance _ tg o.amount h1
  unfold confirmCommit
  exact ⟨h2.users_nodup, h2.orders_nodup, h2.orders_lt_next, h2.statuses,
    h2.customers_exist, h2.codes_nodup, h2.used_oids_nodup, h2.used_terminal⟩

theorem inv_cb_executor_check_email (st : St) (tg : Nat) (cands : List (Nat × String))
    (h : Inv st) : Inv (cb_executor_check_email st tg cands) := by
  rcases cb_executor_check_email_cases st tg cands with heq | ⟨_, oid, code, o, hpass, heq⟩
  · rw [heq]; exact h
  · rw [heq]; exact inv_confirmCommit st tg oid code o hpass h

theorem inv_mark_order_refunded (st : St) (oid : Nat) (h : Inv st) :
    Inv (mark_order_refunded st oid) := by
  unfold mark_order_refunded
  apply inv_orders_update st oid _ (by intro o'; rfl) (by intro o'; rfl)
  · intro o' _ _
    simp [allowedStatuses]
  · intro o' _ _ _
    right; rfl
  · exact h

theorem inv_refund_process_one (st : St) (h : Inv st) : Inv (refund_process_one st) := by
  unfold refund_process_one
  cases st.refundQueue with
  | nil => exact h
  | cons o rest =>
    simp only
    have h2 : Inv (mark_order_refunded (adjust_balance st o.customer_tg_id o.amount) o.id) :=
      inv_mark_order_refunded _ _ (inv_adjust_balance st _ _ h)
    exact ⟨h2.users_nodup, h2.orders_nodup, h2.orders_lt_next, h2.statuses,
      h2.customers_exist, h2.codes_nodup, h2.used_oids_nodup, h2.used_terminal⟩

theorem inv_step (ev : Ev) (st : St) (h : Inv st) : Inv (step ev st) := by
  cases ev with
  | start tg => exact inv_get_or_create_user st tg h
  | set_role tg r => exact inv_set_user_role st tg r h
  | set_email tg e => exact inv_set_user_email _ tg e (inv_get_or_create_user st tg h)
  | topup tg =>
    show Inv (cb_wallet_topup st tg)
    unfold cb_wallet_topup
    by_cases hs : (get_user st tg).isSome
    · simp only [if_pos hs]
      have h1 := inv_adjust_balance st tg 1000 h
      exact ⟨h1.users_nodup, h1.orders_nodup, h1.orders_lt_next, h1.statuses,
        h1.customers_exist, h1.codes_nodup, h1.used_oids_nodup, h1.used_terminal⟩
    · simp only [if_neg hs]
      exact inv_adjust_balance st tg 1000 h
  | create tg title description amount dh ad_link =>
    exact inv_fsm_order_finish st tg title description amount dh ad_link h
  | respond tg oid => exact inv_cb_executor_respond st tg oid h
  | approve tg oid ex => exact inv_cb_customer_approve st tg oid ex h
  | deliver tg oid r => exact inv_cb_executor_deliver st tg oid r h
  | check_email tg cands => exact inv_cb_executor_check_email st tg cands h
  | refundScan =>
    exact ⟨h.users_nodup, h.orders_nodup, h.orders_lt_next, h.statuses,
      h.customers_exist, h.codes_nodup, h.used_oids_nodup, h.used_terminal⟩
  | refundStep => exact inv_refund_process_one st h
  | tick d =>
    exact ⟨h.users_nodup, h.orders_nodup, h.orders_lt_next, h.statuses,
      h.customers_exist, h.codes_nodup, h.used_oids_nodup, h.used_terminal⟩

theorem inv_reach {st : St} (h : Reach st) : Inv st := by
  induction h with
  | init => exact inv_init
  | step ev hr ih => exact inv_step ev _ ih

theorem pendingReserved_orders_update (st : St) (oid : Nat) (g : OrderRow → OrderRow)
    (hnd : (st.orders.map OrderRow.id).Nodup)
    (o₀ : OrderRow) (hfind : get_order st oid = some o₀) (tg : Nat) :
    ((st.orders.map (fun o => if o.id = oid then g o else o)).map (contrib tg)).sum
      = pendingReserved st tg + (contrib tg (g o₀) - contrib tg o₀) :=
  sum_map_update_of_find? OrderRow.id (contrib tg) g oid st.orders hnd o₀ hfind

theorem balanceOf_users_map (st : St) (f : UserRow → UserRow)
    (hf : ∀ u, (f u).tg_id = u.tg_id) (hb : ∀ u, (f u).balance = u.balance) (tg : Nat) :
    balanceOf { st with users := st.users.map f } tg = balanceOf st tg := by
  unfold balanceOf
  show (match (st.users.map f).find? (fun u => u.tg_id == tg) with
        | some u => u.balance | none => 0) = _
  rw [get_user_map_users _ _ hf]
  unfold get_user
  cases st.users.find? (fun u => u.tg_id == tg) with
  | none => rfl
  | some u => simp [hb u]

theorem balanceOf_get_or_create (st : St) (tg tg' : Nat) :
    balanceOf (get_or_create_user st tg) tg' = balanceOf st tg' := by
  unfold get_or_create_user
  by_cases hs : (get_user st tg).isSome
  · rw [if_pos hs]
  · rw [if_neg hs]
    unfold balanceOf get_user
    rw [List.find?_append]
    cases hf : st.users.find? (fun u => u.tg_id == tg') with
    | some u => simp
    | none =>
      simp only [Option.none_or]
      by_cases he : tg = tg'
      · subst he
        simp
      · rw [List.find?_cons_of_neg _ (by simp [he]), List.find?_nil]

theorem used_completed_update (st : St) (oid : Nat) (g : OrderRow → OrderRow)
    (hnd : (st.orders.map OrderRow.id).Nodup)
    (o₀ : OrderRow) (hget : get_order st oid = some o₀) (hne : o₀.status ≠ "completed")
    (huc : ∀ p ∈ st.usedCodes, ∃ o ∈ st.orders, o.id = p.2 ∧ o.status = "completed") :
    ∀ p ∈ st.usedCodes,
      ∃ o ∈ st.orders.map (fun o => if o.id = oid then g o else o),
        o.id = p.2 ∧ o.status = "completed" := by
  intro p hp
  obtain ⟨o, ho, hoid, hcomp⟩ := huc p hp
  have hneq : o.id ≠ oid := by
    intro heq
    have : o = o₀ :=
      List.inj_on_of_nodup_map hnd ho (get_order_mem hget) (by rw [heq, get_order_id hget])
    rw [this] at hcomp
    exact hne hcomp
  refine ⟨o, ?_, hoid, hcomp⟩
  have : (fun o => if o.id = oid then g o else o) o = o := by
    simp only
    rw [if_neg hneq]
  rw [← this]
  exact List.mem_map_of_mem _ ho

theorem sinv_init : SInv init := by
  refine ⟨inv_init, rfl, ?_, ?_⟩
  · intro p hp
    simp [init] at hp
  · intro tg
    simp [balanceOf, pendingReserved, get_user, init]

theorem conserve_congr (st st' : St) (hu : st'.users = st.users)
    (ho : st'.orders = st.orders) (ha : st'.applied = st.applied)
    (h : Conserve st) : Conserve st' := by
  intro tg
  have hb : balanceOf st' tg = balanceOf st tg := by
    unfold balanceOf get_user
    rw [hu]
  have hp : pendingReserved st' tg = pendingReserved st tg := by
    unfold pendingReserved
    rw [ho]
  rw [hb, hp, ha]
  exact h tg

theorem conserve_users_map (st : St) (f : UserRow → UserRow)
    (hf : ∀ u, (f u).tg_id = u.tg_id) (hb : ∀ u, (f u).balance = u.balance)
    (h : Conserve st) : Conserve { st with users := st.users.map f } := by
  intro tg
  rw [balanceOf_users_map st f hf hb]
  exact h tg

theorem conserve_get_or_create (st : St) (tg : Nat) (h : Conserve st) :
    Conserve (get_or_create_user st tg) := by
  intro tg'
  rw [balanceOf_get_or_create]
  have hp : pendingReserved (get_or_create_user st tg) tg' = pendingReserved st tg' := by
    unfold pendingReserved get_or_create_user
    by_cases hs : (get_user st tg).isSome <;> simp [hs]
  have ha : (get_or_create_user st tg).applied = st.applied := by
    unfold get_or_create_user
    by_cases hs : (get_user st tg).isSome <;> simp [hs]
  rw [hp, ha]
  exact h tg'

theorem conserve_cb_wallet_topup (st : St) (tg : Nat) (h : Conserve st) :
    Conserve (cb_wallet_topup st tg) := by
  unfold cb_wallet_topup
  by_cases hs : (get_user st tg).isSome
  · simp only [if_pos hs]
    intro tg'
    have hb : balanceOf { adjust_balance st tg 1000 with
        applied := fun x => if x = tg then (adjust_balance st tg 1000).applied x + 1000
                            else (adjust_balance st tg 1000).applied x } tg'
        = balanceOf (adjust_balance st tg 1000) tg' := rfl
    rw [hb, balanceOf_adjust_balance]
    have hp : pendingReserved { adjust_balance st tg 1000 with
        applied := fun x => if x = tg then (adjust_balance st tg 1000).applied x + 1000
                            else (adjust_balance st tg 1000).applied x } tg'
        = pendingReserved st tg' := rfl
    rw [hp]
    show balanceOf st tg' + _ + pendingReserved st tg'
        = if tg' = tg then st.applied tg' + 1000 else st.applied tg'
    by_cases he : tg' = tg
    · subst he
      rw [if_pos ⟨rfl, hs⟩, if_pos rfl, ← h tg']
      ring
    · rw [if_neg (by tauto), if_neg he, ← h tg']
      ring
  · simp only [if_neg hs]
    intro tg'
    rw [balanceOf_adjust_balance]
    have hp : pendingReserved (adjust_balance st tg 1000) tg' = pendingReserved st tg' := rfl
    have ha : (adjust_balance st tg 1000).applied = st.applied := rfl
    rw [hp, ha]
    by_cases he : tg' = tg
    · subst he
      rw [if_neg (by intro hx; exact absurd hx.2 (by simpa using hs))]
      rw [← h tg']
      ring
    · rw [if_neg (by tauto), ← h tg']
      ring

theorem pendingReserved_create_order (st : St) (cust : Nat) (title descr : String)
    (amount : ℤ) (dh : Nat) (al : Option String) (tg' : Nat) :
    pendingReserved (create_order st cust title descr amount dh al).1 tg'
      = pendingReserved st tg' + (if cust = tg' then amount else 0) := by
  unfold pendingReserved create_order
  simp only
  rw [List.map_append, List.sum_append]
  congr 1
  simp only [List.map_cons, List.map_nil, List.sum_cons, List.sum_nil, add_zero]
  unfold contrib
  by_cases he : cust = tg'
  · rw [if_pos ⟨he, by simp, by simp⟩, if_pos he]
  · rw [if_neg (by intro hx; exact he hx.1), if_neg he]

theorem conserve_fsm_order_finish (st : St) (tg : Nat) (title description : String)
    (amount : ℤ) (dh : Nat) (ad_link : Option String) (h : Conserve st) :
    Conserve (fsm_order_finish st tg title description amount dh ad_link) := by
  unfold fsm_order_finish
  cases hu : get_user st tg with
  | none => exact h
  | some u =>
    by_cases hb : u.balance < amount
    · simp only [if_pos hb]; exact h
    · simp only [if_neg hb]
      intro tg'
      have hbal : balanceOf
          (create_order (adjust_balance st tg (-amount)) tg title description amount dh ad_link).1 tg'
          = balanceOf (adjust_balance st tg (-amount)) tg' := rfl
      have happ : (create_order (adjust_balance st tg (-amount)) tg title description amount dh ad_link).1.applied
          = st.applied := rfl
      rw [hbal, balanceOf_adjust_balance, pendingReserved_create_order, happ]
      have hpp : pendingReserved (adjust_balance st tg (-amount)) tg' = pendingReserved st tg' := rfl
      rw [hpp]
      by_cases he : tg' = tg
      · subst he
        rw [if_pos ⟨rfl, by simp [hu]⟩, if_pos rfl, ← h tg']
        ring
      · rw [if_neg (by tauto), if_neg (by tauto), ← h tg']
        ring

theorem conserve_orders_update_same_contrib (st : St) (oid : Nat) (g : OrderRow → OrderRow)
    (hnd : (st.orders.map OrderRow.id).Nodup)
    (o₀ : OrderRow) (hget : get_order st oid = some o₀)
    (hcontrib : ∀ tg', contrib tg' (g o₀) = contrib tg' o₀) (h : Conserve st) :
    Conserve { st with orders := st.orders.map (fun o => if o.id = oid then g o else o) } := by
  intro tg'
  have hbal : balanceOf { st with orders := st.orders.map (fun o => if o.id = oid then g o else o) } tg'
      = balanceOf st tg' := rfl
  have hp : pendingReserved { st with orders := st.orders.map (fun o => if o.id = oid then g o else o) } tg'
      = pendingReserved st tg' + (contrib tg' (g o₀) - contrib tg' o₀) :=
    pendingReserved_orders_update st oid g hnd o₀ hget tg'
  rw [hbal, hp, hcontrib tg', ← h tg']
  ring

theorem conserve_cb_customer_approve (st : St) (tg oid ex : Nat)
    (hnd : (st.orders.map OrderRow.id).Nodup) (h : Conserve st) :
    Conserve (cb_customer_approve st tg oid ex) := by
  unfold cb_customer_approve
  cases hgo : get_order st oid with
  | none => exact h
  | some o =>
    by_cases hc : o.customer_tg_id ≠ tg
    · simp only [if_pos hc]; exact h
    · simp only [if_neg hc]
      by_cases hs : o.status ≠ "open"
      · simp only [if_pos hs]; exact h
      · simp only [if_neg hs]
        push_neg at hs
        unfold assign_executor
        apply conserve_orders_update_same_contrib st oid _ hnd o hgo _ h
        intro tg'
        unfold contrib
        simp only [hs]
        by_cases he : o.customer_tg_id = tg' <;> simp [he]

theorem conserve_cb_executor_deliver (st : St) (tg oid r : Nat)
    (hnd : (st.orders.map OrderRow.id).Nodup) (h : Conserve st) :
    Conserve (cb_executor_deliver st tg oid r) := by
  unfold cb_executor_deliver
  cases hgo : get_order st oid with
  | none => exact h
  | some o =>
    cases hgu : get_user st tg with
    | none => exact h
    | some u =>
      by_cases h1 : o.assigned_executor_tg_id ≠ some tg
      · simp only [if_pos h1]; exact h
      · simp only [if_neg h1]
        by_cases h2 : o.status ≠ "in_progress"
        · simp only [if_pos h2]; exact h
        · simp only [if_neg h2]
          push_neg at h2
          by_cases h3 : u.email = none
          · simp only [if_pos h3]; exact h
          · simp only [if_neg h3]
            unfold mark_waiting_email_confirmation
            apply conserve_orders_update_same_contrib st oid _ hnd o hgo _ h
            intro tg'
            unfold contrib
            simp only [h2]
            by_cases he : o.customer_tg_id = tg' <;> simp [he]

theorem conserve_confirmCommit (st : St) (tg oid : Nat) (code : String) (o : OrderRow)
    (hpass : PassesCheck st tg oid code o) (hs : (get_user st tg).isSome)
    (hnd : (st.orders.map OrderRow.id).Nodup) (h : Conserve st) :
    Conserve (confirmCommit st tg oid code o) := by
  obtain ⟨hgo, _, hwait, _, _⟩ := hpass
  intro tg'
  unfold confirmCommit
  simp only
  have hbal2 : balanceOf (adjust_balance (complete_order_with_code st oid code) tg o.amount) tg'
      = balanceOf st tg'
        + (if tg' = tg ∧ (get_user st tg').isSome then o.amount else 0) := by
    have hb1 : balanceOf (complete_order_with_code st oid code) tg' = balanceOf st tg' := rfl
    have hg1 : get_user (complete_order_with_code st oid code) tg' = get_user st tg' := rfl
    rw [balanceOf_adjust_balance, hb1, hg1]
  have hp2 : pendingReserved (adjust_balance (complete_order_with_code st oid code) tg o.amount) tg'
      = pendingReserved st tg'
        + (contrib tg' { o with status := "completed", updated_at := st.now } - contrib tg' o) := by
    have : pendingReserved (adjust_balance (complete_order_with_code st oid code) tg o.amount) tg'
        = pendingReserved (complete_order_with_code st oid code) tg' := rfl
    rw [this]
    exact pendingReserved_orders_update st oid _ hnd o hgo tg'
  have happ : (adjust_balance (complete_order_with_code st oid code) tg o.amount).applied
      = st.applied := rfl
  show balanceOf (adjust_balance (complete_order_with_code st oid code) tg o.amount) tg'
      + pendingReserved (adjust_balance (complete_order_with_code st oid code) tg o.amount) tg'
      = _ + (if tg' = tg then o.amount else 0) - (if tg' = o.customer_tg_id then o.amount else 0)
  rw [hbal2, hp2, happ]
  have hc1 : contrib tg' { o with status := "completed", updated_at := st.now } = 0 := by
    unfold contrib
    rw [if_neg (by intro hx; exact absurd rfl hx.2.1)]
  have hc2 : contrib tg' o = if tg' = o.customer_tg_id then o.amount else 0 := by
    unfold contrib
    rw [hwait]
    by_cases he : o.customer_tg_id = tg'
    · rw [if_pos ⟨he, by simp, by simp⟩, if_pos he.symm]
    · rw [if_neg (by intro hx; exact he hx.1), if_neg (fun hx => he hx.symm)]
  rw [hc1, hc2]
  by_cases he : tg' = tg
  · subst he
    rw [if_pos ⟨rfl, hs⟩, if_pos rfl, ← h tg']
    ring
  · rw [if_neg (by tauto), if_neg he, ← h tg']
    ring

theorem sinv_parts (st st' : St) (hinv : Inv st') (ho : st'.orders = st.orders)
    (hc : st'.usedCodes = st.usedCodes) (hq : st'.refundQueue = st.refundQueue)
    (hcon : Conserve st') (h : SInv st) : SInv st' := by
  refine ⟨hinv, by rw [hq]; exact h.queue_nil, ?_, hcon⟩
  intro p hp
  rw [hc] at hp
  obtain ⟨o, hom, hoid, hcomp⟩ := h.used_completed p hp
  exact ⟨o, by rw [ho]; exact hom, hoid, hcomp⟩

theorem goc_orders (st : St) (tg : Nat) : (get_or_create_user st tg).orders = st.orders := by
  unfold get_or_create_user; split <;> rfl

theorem goc_usedCodes (st : St) (tg : Nat) :
    (get_or_create_user st tg).usedCodes = st.usedCodes := by
  unfold get_or_create_user; split <;> rfl

theorem goc_queue (st : St) (tg : Nat) :
    (get_or_create_user st tg).refundQueue = st.refundQueue := by
  unfold get_or_create_user; split <;> rfl

theorem respond_orders (st : St) (tg oid : Nat) :
    (cb_executor_respond st tg oid).orders = st.orders := by
  unfold cb_executor_respond add_response
  split
  · rfl
  · split
    · rfl
    · split <;> rfl

theorem respond_usedCodes (st : St) (tg oid : Nat) :
    (cb_executor_respond st tg oid).usedCodes = st.usedCodes := by
  unfold cb_executor_respond add_response
  split
  · rfl
  · split
    · rfl
    · split <;> rfl

theorem respond_queue (st : St) (tg oid : Nat) :
    (cb_executor_respond st tg oid).refundQueue = st.refundQueue := by
  unfold cb_executor_respond add_response
  split
  · rfl
  · split
    · rfl
    · split <;> rfl

theorem conserve_cb_executor_respond (st : St) (tg oid : Nat) (h : Conserve st) :
    Conserve (cb_executor_respond st tg oid) := by
  apply conserve_congr st _ _ (respond_orders st tg oid) _ h
  · unfold cb_executor_respond add_response
    split
    · rfl
    · split
      · rfl
      · split <;> rfl
  · unfold cb_executor_respond add_response
    split
    · rfl
    · split
      · rfl
      · split <;> rfl

theorem sinv_step (ev : Ev) (st : St) (hs1 : ev ≠ Ev.refundScan) (hs2 : ev ≠ Ev.refundStep)
    (h : SInv st) : SInv (step ev st) := by
  have hinv := inv_step ev st h.inv
  cases ev with
  | start tg =>
    exact sinv_parts st _ hinv (goc_orders st tg) (goc_usedCodes st tg) (goc_queue st tg)
      (conserve_get_or_create st tg h.conserve) h
  | set_role tg r =>
    exact sinv_parts st _ hinv rfl rfl rfl
      (conserve_users_map st _ (by intro u; by_cases hc : u.tg_id = tg <;> simp [hc])
        (by intro u; by_cases hc : u.tg_id = tg <;> simp [hc]) h.conserve) h
  | set_email tg e =>
    refine sinv_parts st _ hinv ?_ ?_ ?_ ?_ h
    · show (set_user_email (get_or_create_user st tg) tg e).orders = st.orders
      rw [show (set_user_email (get_or_create_user st tg) tg e).orders
          = (get_or_create_user st tg).orders from rfl, goc_orders]
    · show (set_user_email (get_or_create_user st tg) tg e).usedCodes = st.usedCodes
      rw [show (set_user_email (get_or_create_user st tg) tg e).usedCodes
          = (get_or_create_user st tg).usedCodes from rfl, goc_usedCodes]
    · show (set_user_email (get_or_create_user st tg) tg e).refundQueue = st.refundQueue
      rw [show (set_user_email (get_or_create_user st tg) tg e).refundQueue
          = (get_or_create_user st tg).refundQueue from rfl, goc_queue]
    · exact conserve_users_map (get_or_create_user st tg) _
        (by intro u; by_cases hc : u.tg_id = tg <;> simp [hc])
        (by intro u; by_cases hc : u.tg_id = tg <;> simp [hc])
        (conserve_get_or_create st tg h.conserve)
  | topup tg =>
    refine sinv_parts st _ hinv ?_ ?_ ?_
      (conserve_cb_wallet_topup st tg h.conserve) h
    · show (cb_wallet_topup st tg).orders = st.orders
      unfold cb_wallet_topup
      split <;> rfl
    · show (cb_wallet_topup st tg).usedCodes = st.usedCodes
      unfold cb_wallet_topup
      split <;> rfl
    · show (cb_wallet_topup st tg).refundQueue = st.refundQueue
      unfold cb_wallet_topup
      split <;> rfl
  | create tg title description amount dh ad_link =>
    refine ⟨hinv, ?_, ?_, conserve_fsm_order_finish st tg title description amount dh ad_link h.conserve⟩
    · show (fsm_order_finish st tg title description amount dh ad_link).refundQueue = []
      unfold fsm_order_finish
      rcases get_user st tg with _ | u
      · exact h.queue_nil
      · dsimp only
        split
        · exact h.queue_nil
        · exact h.queue_nil
    · show ∀ p ∈ (fsm_order_finish st tg title description amount dh ad_link).usedCodes,
        ∃ o ∈ (fsm_order_finish st tg title description amount dh ad_link).orders,
          o.id = p.2 ∧ o.status = "completed"
      unfold fsm_order_finish
      rcases get_user st tg with _ | u
      · exact h.used_completed
      · dsimp only
        split
        · exact h.used_completed
        · intro p hp
          obtain ⟨o, hom, hoid, hcomp⟩ := h.used_completed p hp
          exact ⟨o, List.mem_append_left _ hom, hoid, hcomp⟩
  | respond tg oid =>
    exact sinv_parts st _ hinv (respond_orders st tg oid) (respond_usedCodes st tg oid)
      (respond_queue st tg oid) (conserve_cb_executor_respond st tg oid h.conserve) h
  | approve tg oid ex =>
    refine ⟨hinv, ?_, ?_, conserve_cb_customer_approve st tg oid ex h.inv.orders_nodup h.conserve⟩
    · show (cb_customer_approve st tg oid ex).refundQueue = []
      unfold cb_customer_approve assign_executor
      split
      · exact h.queue_nil
      · split
        · exact h.queue_nil
        · split <;> exact h.queue_nil
    · show ∀ p ∈ (cb_customer_approve st tg oid ex).usedCodes,
        ∃ o ∈ (cb_customer_approve st tg oid ex).orders, o.id = p.2 ∧ o.status = "completed"
      unfold cb_customer_approve
      cases hgo : get_order st oid with
      | none => exact h.used_completed
      | some o =>
        dsimp only
        by_cases hc : o.customer_tg_id ≠ tg
        · rw [if_pos hc]; exact h.used_completed
        · rw [if_neg hc]
          by_cases hst : o.status ≠ "open"
          · rw [if_pos hst]; exact h.used_completed
          · rw [if_neg hst]
            push_neg at hst
            unfold assign_executor
            exact used_completed_update st oid _ h.inv.orders_nodup o hgo
              (by rw [hst]; simp) h.used_completed
  | deliver tg oid r =>
    refine ⟨hinv, ?_, ?_, conserve_cb_executor_deliver st tg oid r h.inv.orders_nodup h.conserve⟩
    · show (cb_executor_deliver st tg oid r).refundQueue = []
      unfold cb_executor_deliver mark_waiting_email_confirmation
      split
      · split
        · exact h.queue_nil
        · split
          · exact h.queue_nil
          · split <;> exact h.queue_nil
      · exact h.queue_nil
    · show ∀ p ∈ (cb_executor_deliver st tg oid r).usedCodes,
        ∃ o ∈ (cb_executor_deliver st tg oid r).orders, o.id = p.2 ∧ o.status = "completed"
      unfold cb_executor_deliver
      cases hgo : get_order st oid with
      | none => exact h.used_completed
      | some o =>
        cases hgu : get_user st tg with
        | none => exact h.used_completed
        | some u =>
          dsimp only
          by_cases h1 : o.assigned_executor_tg_id ≠ some tg
          · rw [if_pos h1]; exact h.used_completed
          · rw [if_neg h1]
            by_cases h2 : o.status ≠ "in_progress"
            · rw [if_pos h2]; exact h.used_completed
            · rw [if_neg h2]
              push_neg at h2
              by_cases h3 : u.email = none
              · rw [if_pos h3]; exact h.used_completed
              · rw [if_neg h3]
                unfold mark_waiting_email_confirmation
                exact used_completed_update st oid _ h.inv.orders_nodup o hgo
                  (by rw [h2]; simp) h.used_completed
  | check_email tg cands =>
    rcases cb_executor_check_email_cases st tg cands with heq | ⟨husr, oid, code, o, hpass, heq⟩
    · show SInv (cb_executor_check_email st tg cands)
      rw [heq]
      exact h
    · show SInv (cb_executor_check_email st tg cands)
      rw [heq]
      have hinv' : Inv (confirmCommit st tg oid code o) :=
        inv_confirmCommit st tg oid code o hpass h.inv
      refine ⟨hinv', h.queue_nil, ?_,
        conserve_confirmCommit st tg oid code o hpass husr h.inv.orders_nodup h.conserve⟩
      obtain ⟨hgo, _, hwait, _, _⟩ := hpass
      intro p hp
      have hp' : p ∈ st.usedCodes ++ [(code, oid)] := hp
      rcases List.mem_append.mp hp' with hpold | hpnew
      · have := used_completed_update st oid
          (fun o' => { o' with status := "completed", updated_at := st.now })
          h.inv.orders_nodup o hgo (by rw [hwait]; simp) h.used_completed p hpold
        obtain ⟨o', hom, hoid', hcomp'⟩ := this
        exact ⟨o', hom, hoid', hcomp'⟩
      · simp only [List.mem_singleton] at hpnew
        subst hpnew
        refine ⟨{ o with status := "completed", updated_at := st.now }, ?_, ?_, rfl⟩
        · have hmem := List.mem_map_of_mem
            (fun o' => if o'.id = oid then { o' with status := "completed", updated_at := st.now } else o')
            (get_order_mem hgo)
          dsimp only at hmem
          rw [if_pos (get_order_id hgo)] at hmem
          exact hmem
        · simp [get_order_id hgo]
  | refundScan => exact absurd rfl hs1
  | refundStep => exact absurd rfl hs2
  | tick d =>
    exact sinv_parts st _ hinv rfl rfl rfl
      (conserve_congr st _ rfl rfl rfl h.conserve) h

theorem get_order_of_mem (st : St) (hnd : (st.orders.map OrderRow.id).Nodup)
    {o : OrderRow} (ho : o ∈ st.orders) : get_order st o.id = some o := by
  cases hf : get_order st o.id with
  | none =>
    have := List.find?_eq_none.mp hf o ho
    simp at this
  | some o' =>
    have heq : o' = o :=
      List.inj_on_of_nodup_map hnd (get_order_mem hf) ho (get_order_id hf)
    rw [heq]

theorem mid_of_scan (st : St) (h : SInv st) : MidInv (refund_scan st) := by
  refine ⟨?_, h.used_completed, conserve_congr st _ rfl rfl rfl h.conserve, ?_, ?_⟩
  · have h1 := h.inv
    exact ⟨h1.users_nodup, h1.orders_nodup, h1.orders_lt_next, h1.statuses,
      h1.customers_exist, h1.codes_nodup, h1.used_oids_nodup, h1.used_terminal⟩
  · intro q hq
    have hq' : q ∈ st.orders.filter _ := hq
    have hmem := List.mem_filter.mp hq'
    refine ⟨q, hmem.1, rfl, rfl, rfl, ?_⟩
    have := hmem.2
    simp only [Bool.and_eq_true, beq_iff_eq] at this
    exact this.1
  · show ((list_expired_confirmation_orders st).map OrderRow.id).Nodup
    exact h.inv.orders_nodup.sublist (List.Sublist.map _ (List.filter_sublist _))

theorem mid_step (st : St) (h : MidInv st) : MidInv (refund_process_one st) := by
  unfold refund_process_one
  cases hq : st.refundQueue with
  | nil => exact h
  | cons q rest =>
    dsimp only
    obtain ⟨o, ho, hoid, hocust, hoamt, howait⟩ := h.queue_good q (by rw [hq]; simp)
    have hget : get_order st q.id = some o := by
      rw [← hoid]
      exact get_order_of_mem st h.inv.orders_nodup ho
    have hqrest_nodup : (rest.map OrderRow.id).Nodup := by
      have := h.queue_nodup
      rw [hq] at this
      exact (List.nodup_cons.mp this).2
    have hqhead_notin : q.id ∉ rest.map OrderRow.id := by
      have := h.queue_nodup
      rw [hq] at this
      exact (List.nodup_cons.mp this).1
    have hinv2 : Inv (mark_order_refunded (adjust_balance st q.customer_tg_id q.amount) q.id) :=
      inv_mark_order_refunded _ _ (inv_adjust_balance st _ _ h.inv)
    refine ⟨⟨hinv2.users_nodup, hinv2.orders_nodup, hinv2.orders_lt_next, hinv2.statuses,
      hinv2.customers_exist, hinv2.codes_nodup, hinv2.used_oids_nodup, hinv2.used_terminal⟩,
      ?_, ?_, ?_, ?_⟩
    · -- used_completed
      intro p hp
      have hget1 : get_order (adjust_balance st q.customer_tg_id q.amount) q.id = some o := hget
      have := used_completed_update (adjust_balance st q.customer_tg_id q.amount) q.id
        (fun o' => { o' with
                     status := "refunded",
                     updated_at := (adjust_balance st q.customer_tg_id q.amount).now })
        h.inv.orders_nodup o hget1 (by rw [howait]; simp) h.used_completed p hp
      exact this
    · -- conserve
      have hcon2 : Conserve (mark_order_refunded (adjust_balance st q.customer_tg_id q.amount) q.id) := by
        intro tg
        have hbal : balanceOf (mark_order_refunded (adjust_balance st q.customer_tg_id q.amount) q.id) tg
            = balanceOf (adjust_balance st q.customer_tg_id q.amount) tg := rfl
        rw [hbal, balanceOf_adjust_balance]
        have hp2 : pendingReserved (mark_order_refunded (adjust_balance st q.customer_tg_id q.amount) q.id) tg
            = pendingReserved st tg
              + (contrib tg { o with
                              status := "refunded",
                              updated_at := (adjust_balance st q.customer_tg_id q.amount).now } - contrib tg o) :=
          pendingReserved_orders_update (adjust_balance st q.customer_tg_id q.amount) q.id _
            h.inv.orders_nodup o hget tg
        rw [hp2]
        have happ : (mark_order_refunded (adjust_balance st q.customer_tg_id q.amount) q.id).applied
            = st.applied := rfl
        rw [happ]
        have hc1 : contrib tg { o with
                                status := "refunded",
                                updated_at := (adjust_balance st q.customer_tg_id q.amount).now } = 0 := by
          unfold contrib
          rw [if_neg (by intro hx; exact absurd rfl hx.2.2)]
        have hc2 : contrib tg o = if tg = q.customer_tg_id then q.amount else 0 := by
          unfold contrib
          rw [hoamt, hocust]
          by_cases he : q.customer_tg_id = tg
          · rw [if_pos ⟨he, by rw [howait]; simp, by rw [howait]; simp⟩, if_pos he.symm]
          · rw [if_neg (by intro hx; exact he hx.1), if_neg (fun hx => he hx.symm)]
        rw [hc1, hc2]
        have hsome : (get_user st q.customer_tg_id).isSome := by
          rw [← hocust]
          exact h.inv.customers_exist o ho
        by_cases he : tg = q.customer_tg_id
        · subst he
          rw [if_pos ⟨rfl, hsome⟩, ← h.conserve q.customer_tg_id]
          simp only [eq_self_iff_true, if_true]
          ring
        · rw [if_neg (by tauto), if_neg he, ← h.conserve tg]
          ring
      exact conserve_congr _ _ rfl rfl rfl hcon2
    · -- queue_good for the tail
      intro q' hq'
      have hq'' : q' ∈ rest := hq'
      obtain ⟨o', ho', hoid', hocust', hoamt', howait'⟩ := h.queue_good q' (by rw [hq]; simp [hq''])
      have hne : o'.id ≠ q.id := by
        rw [hoid']
        intro hc
        exact hqhead_notin (hc ▸ List.mem_map_of_mem OrderRow.id hq'')
      refine ⟨o', ?_, hoid', hocust', hoamt', howait'⟩
      have hmem := List.mem_map_of_mem
        (fun o'' => if o''.id = q.id then { o'' with
                                            status := "refunded",
                                            updated_at := (adjust_balance st q.customer_tg_id q.amount).now }
                    else o'') ho'
      dsimp only at hmem
      rw [if_neg hne] at hmem
      exact hmem
    · exact hqrest_nodup

theorem mid_drain (n : Nat) (st : St) (h : MidInv st) : MidInv (drain n st) := by
  induction n generalizing st with
  | zero => exact h
  | succ n ih => exact ih _ (mid_step st h)

theorem drain_queue_nil : ∀ (n : Nat) (st : St), st.refundQueue.length = n →
    (drain n st).refundQueue = [] := by
  intro n
  induction n with
  | zero =>
    intro st hlen
    exact List.length_eq_zero.mp hlen
  | succ n ih =>
    intro st hlen
    show (drain n (refund_process_one st)).refundQueue = []
    apply ih
    unfold refund_process_one
    cases hq : st.refundQueue with
    | nil => rw [hq] at hlen; simp at hlen
    | cons q rest =>
      rw [hq] at hlen
      simpa using Nat.succ_injective hlen

theorem sinv_cycle (st : St) (h : SInv st) : SInv (refund_cycle st) := by
  unfold refund_cycle
  have hmid := mid_drain (refund_scan st).refundQueue.length (refund_scan st) (mid_of_scan st h)
  refine ⟨hmid.inv, ?_, hmid.used_completed, hmid.conserve⟩
  exact drain_queue_nil _ _ rfl

theorem sreach_sinv {st : St} (h : SReach st) : SInv st := by
  induction h with
  | init => exact sinv_init
  | step ev h1 h2 hr ih => exact sinv_step ev _ h1 h2 ih
  | cycle hr ih => exact sinv_cycle _ ih

theorem reach_drain (n : Nat) (st : St) (h : Reach st) : Reach (drain n st) := by
  induction n generalizing st with
  | zero => exact h
  | succ n ih => exact ih _ (Reach.step Ev.refundStep h)

theorem sreach_reach {st : St} (h : SReach st) : Reach st := by
  induction h with
  | init => exact Reach.init
  | step ev _ _ hr ih => exact Reach.step ev ih
  | cycle hr ih =>
    unfold refund_cycle
    exact reach_drain _ _ (Reach.step Ev.refundScan ih)

theorem get_order_refund_process_one_other (st : St) (q : OrderRow) (rest : List OrderRow)
    (hq : st.refundQueue = q :: rest) (oid : Nat) (hne : oid ≠ q.id) :
    get_order (refund_process_one st) oid = get_order st oid := by
  unfold refund_process_one
  rw [hq]
  dsimp only
  show (st.orders.map _).find? (fun o => o.id == oid) = get_order st oid
  rw [get_order_map_orders _ _ (by intro o'; by_cases hc : o'.id = q.id <;> simp [hc]) oid]
  unfold get_order
  cases hf : st.orders.find? (fun o => o.id == oid) with
  | none => rfl
  | some o =>
    have hid : o.id = oid := by simpa using List.find?_some hf
    have : o.id ≠ q.id := by rw [hid]; exact hne
    simp [Option.map, this]

theorem drain_spec : ∀ (queue : List OrderRow) (st : St),
    st.refundQueue = queue →
    (queue.map OrderRow.id).Nodup →
    (∀ q ∈ queue, ∃ o ∈ st.orders, o.id = q.id ∧ o.customer_tg_id = q.customer_tg_id ∧
      o.amount = q.amount ∧ o.status = "waiting_email_confirmation") →
    (∀ q ∈ queue, (get_user st q.customer_tg_id).isSome) →
    (st.orders.map OrderRow.id).Nodup →
    (∀ oid, oid ∉ queue.map OrderRow.id →
        get_order (drain queue.length st) oid = get_order st oid) ∧
    (∀ q ∈ queue, get_order (drain queue.length st) q.id
        = (get_order st q.id).map (fun o => { o with status := "refunded", updated_at := st.now })) ∧
    (∀ tg, balanceOf (drain queue.length st) tg = balanceOf st tg
        + ((queue.filter (fun q => q.customer_tg_id == tg)).map OrderRow.amount).sum) := by
  intro queue
  induction queue with
  | nil =>
    intro st hq _ _ _ _
    refine ⟨?_, ?_, ?_⟩
    · intro oid _; rfl
    · intro q hq'; cases hq'
    · intro tg; simp [drain]
  | cons q rest ih =>
    intro st hq hnodup hgood hsome hordnd
    obtain ⟨o, ho, hoid, hocust, hoamt, howait⟩ := hgood q (by simp)
    have hget : get_order st q.id = some o := by
      rw [← hoid]
      exact get_order_of_mem st hordnd ho
    have hhead_notin : q.id ∉ rest.map OrderRow.id := (List.nodup_cons.mp hnodup).1
    have hrest_nodup : (rest.map OrderRow.id).Nodup := (List.nodup_cons.mp hnodup).2
    -- the state after processing the head
    have hq1 : (refund_process_one st).refundQueue = rest := by
      unfold refund_process_one
      rw [hq]
    have hnow1 : (refund_process_one st).now = st.now := by
      unfold refund_process_one
      rw [hq]
      rfl
    have hord1 : (refund_process_one st).orders
        = st.orders.map (fun o' => if o'.id = q.id then
            { o' with status := "refunded", updated_at := st.now } else o') := by
      unfold refund_process_one
      rw [hq]
      rfl
    have hord1_ids : ((refund_process_one st).orders.map OrderRow.id).Nodup := by
      rw [hord1, List.map_map]
      have : (OrderRow.id ∘ fun o' => if o'.id = q.id then
          { o' with status := "refunded", updated_at := st.now } else o') = OrderRow.id := by
        funext o'
        by_cases hc : o'.id = q.id <;> simp [hc]
      rw [this]
      exact hordnd
    have husers1 : (refund_process_one st).users
        = st.users.map (fun u => if u.tg_id = q.customer_tg_id then
            { u with balance := u.balance + q.amount } else u) := by
      unfold refund_process_one
      rw [hq]
      rfl
    have hisSome1 : ∀ tg, (get_user (refund_process_one st) tg).isSome = (get_user st tg).isSome := by
      intro tg
      unfold get_user
      rw [husers1]
      exact isSome_get_user_users_map st _ (by intro u; by_cases hc : u.tg_id = q.customer_tg_id <;> simp [hc]) tg
    have hgood1 : ∀ q' ∈ rest, ∃ o' ∈ (refund_process_one st).orders, o'.id = q'.id ∧
        o'.customer_tg_id = q'.customer_tg_id ∧ o'.amount = q'.amount ∧
        o'.status = "waiting_email_confirmation" := by
      intro q' hq'
      obtain ⟨o', ho', hoid', hocust', hoamt', howait'⟩ := hgood q' (by simp [hq'])
      have hne : o'.id ≠ q.id := by
        rw [hoid']
        intro hc
        exact hhead_notin (hc ▸ List.mem_map_of_mem OrderRow.id hq')
      refine ⟨o', ?_, hoid', hocust', hoamt', howait'⟩
      rw [hord1]
      have hmem := List.mem_map_of_mem
        (fun o'' => if o''.id = q.id then
          { o'' with status := "refunded", updated_at := st.now } else o'') ho'
      dsimp only at hmem
      rw [if_neg hne] at hmem
      exact hmem
    have hbal1 : ∀ tg, balanceOf (refund_process_one st) tg
        = balanceOf st tg + (if tg = q.customer_tg_id then q.amount else 0) := by
      intro tg
      unfold refund_process_one
      rw [hq]
      dsimp only
      have : balanceOf { mark_order_refunded (adjust_balance st q.customer_tg_id q.amount) q.id
          with refundQueue := rest } tg = balanceOf (adjust_balance st q.customer_tg_id q.amount) tg := rfl
      rw [this, balanceOf_adjust_balance]
      by_cases he : tg = q.customer_tg_id
      · rw [if_pos ⟨he, by rw [he]; exact hsome q (by simp)⟩, if_pos he]
      · rw [if_neg (by tauto), if_neg he]
    obtain ⟨ih1, ih2, ih3⟩ := ih (refund_process_one st) hq1 hrest_nodup hgood1
      (fun q' hq' => by rw [hisSome1]; exact hsome q' (by simp [hq'])) hord1_ids
    have hlen : (q :: rest).length = rest.length + 1 := rfl
    have hdrain : drain (q :: rest).length st = drain rest.length (refund_process_one st) := rfl
    refine ⟨?_, ?_, ?_⟩
    · intro oid hnin
      rw [hdrain, ih1 oid (fun hc => hnin (by simp [hc]))]
      exact get_order_refund_process_one_other st q rest hq oid
        (fun hc => hnin (by simp [hc]))
    · intro q' hq'
      have hgethead : get_order (refund_process_one st) q.id
          = some { o with status := "refunded", updated_at := st.now } := by
        unfold get_order
        rw [hord1]
        rw [get_order_map_orders st.orders _
          (by intro o''; by_cases hc : o''.id = q.id <;> simp [hc]) q.id]
        rw [show st.orders.find? (fun o'' => o''.id == q.id) = some o from hget]
        simp only [Option.map_some']
        rw [if_pos hoid]
      rcases List.mem_cons.mp hq' with hq' | hq'
      · subst hq'
        rw [hdrain, ih1 q'.id (by exact hhead_notin), hgethead, hget]
        simp only [Option.map_some']
      · rw [hdrain, ih2 q' hq']
        have hne : q'.id ≠ q.id := by
          intro hc
          exact hhead_notin (hc ▸ List.mem_map_of_mem OrderRow.id hq')
        rw [get_order_refund_process_one_other st q rest hq q'.id hne, hnow1]
    · intro tg
      rw [hdrain, ih3 tg, hbal1 tg]
      by_cases he : q.customer_tg_id = tg
      · rw [List.filter_cons_of_pos (by simp [he])]
        simp only [List.map_cons, List.sum_cons]
        rw [if_pos he.symm]
        ring
      · rw [List.filter_cons_of_neg (by simp [he])]
        rw [if_neg (fun hc => he hc.symm)]
        ring

theorem mem_expired_iff (st : St) (o : OrderRow) (ho : o ∈ st.orders) :
    o ∈ list_expired_confirmation_orders st ↔ Expired st o := by
  unfold list_expired_confirmation_orders Expired
  rw [List.mem_filter]
  constructor
  · intro ⟨_, hpred⟩
    simp only [Bool.and_eq_true, beq_iff_eq] at hpred
    refine ⟨hpred.1, ?_⟩
    rcases hd : o.confirm_deadline_at with _ | d
    · rw [hd] at hpred
      simp at hpred
    · rw [hd] at hpred
      exact ⟨d, rfl, by simpa using hpred.2⟩
  · intro ⟨hstat, d, hd, hle⟩
    refine ⟨ho, ?_⟩
    simp only [Bool.and_eq_true, beq_iff_eq]
    exact ⟨hstat, by rw [hd]; simpa using hle⟩

theorem refund_cycle_spec (st : St) (hinv : Inv st) :
    (∀ o ∈ st.orders, Expired st o →
        get_order (refund_cycle st) o.id
          = some { o with status := "refunded", updated_at := st.now }) ∧
    (∀ o ∈ st.orders, ¬ Expired st o → get_order (refund_cycle st) o.id = some o) ∧
    (∀ tg, balanceOf (refund_cycle st) tg = balanceOf st tg
        + (((list_expired_confirmation_orders st).filter
            (fun q => q.customer_tg_id == tg)).map OrderRow.amount).sum) := by
  have hEsub : ∀ q ∈ list_expired_confirmation_orders st, q ∈ st.orders := by
    intro q hq
    exact (List.mem_filter.mp hq).1
  have hEwait : ∀ q ∈ list_expired_confirmation_orders st,
      q.status = "waiting_email_confirmation" := by
    intro q hq
    have := (List.mem_filter.mp hq).2
    simp only [Bool.and_eq_true, beq_iff_eq] at this
    exact this.1
  have hEnodup : ((list_expired_confirmation_orders st).map OrderRow.id).Nodup :=
    hinv.orders_nodup.sublist (List.Sublist.map _ (List.filter_sublist _))
  have hq0 : (refund_scan st).refundQueue = list_expired_confirmation_orders st := rfl
  obtain ⟨h1, h2, h3⟩ := drain_spec (list_expired_confirmation_orders st) (refund_scan st)
    hq0 hEnodup
    (by
      intro q hq
      exact ⟨q, hEsub q hq, rfl, rfl, rfl, hEwait q hq⟩)
    (by
      intro q hq
      exact hinv.customers_exist q (hEsub q hq))
    hinv.orders_nodup
  have hcyc : refund_cycle st
      = drain (list_expired_confirmation_orders st).length (refund_scan st) := rfl
  refine ⟨?_, ?_, ?_⟩
  · intro o ho hexp
    have hoE : o ∈ list_expired_confirmation_orders st := (mem_expired_iff st o ho).mpr hexp
    rw [hcyc, h2 o hoE]
    rw [show get_order (refund_scan st) o.id = get_order st o.id from rfl,
        get_order_of_mem st hinv.orders_nodup ho]
    rfl
  · intro o ho hexp
    have hoid_notin : o.id ∉ (list_expired_confirmation_orders st).map OrderRow.id := by
      intro hmem
      obtain ⟨q, hqE, hqid⟩ := List.mem_map.mp hmem
      have : q = o := List.inj_on_of_nodup_map hinv.orders_nodup (hEsub q hqE) ho hqid
      rw [this] at hqE
      exact hexp ((mem_expired_iff st o ho).mp hqE)
    rw [hcyc, h1 o.id hoid_notin]
    exact get_order_of_mem st hinv.orders_nodup ho
  · intro tg
    rw [hcyc, h3 tg]
    rfl

theorem reach_run (st : St) (h : Reach st) : ∀ evs : List Ev, Reach (run st evs) := by
  intro evs
  induction evs generalizing st with
  | nil => exact h
  | cons ev rest ih => exact ih (step ev st) (Reach.step ev h)

theorem reach_run_init (evs : List Ev) : Reach (run init evs) :=
  reach_run init Reach.init evs

theorem ordersAdvance_of_eq (st st' : St) (hnd : (st.orders.map OrderRow.id).Nodup)
    (h : st'.orders = st.orders) : OrdersAdvance st st' := by
  intro o ho o' ho' hid
  rw [h] at ho'
  have : o' = o := List.inj_on_of_nodup_map hnd ho' ho hid
  left
  rw [this]

theorem ordersAdvance_update (st : St) (oid : Nat) (g : OrderRow → OrderRow)
    (hnd : (st.orders.map OrderRow.id).Nodup)
    (hid : ∀ o, (g o).id = o.id)
    (o₀ : OrderRow) (hget : get_order st oid = some o₀)
    (hstep : StatusStep o₀.status (g o₀).status) (st' : St)
    (hords : st'.orders = st.orders.map (fun o => if o.id = oid then g o else o)) :
    OrdersAdvance st st' := by
  intro o ho o' ho' hid'
  rw [hords] at ho'
  obtain ⟨o₂, ho₂, rfl⟩ := List.mem_map.mp ho'
  by_cases hc : o₂.id = oid
  · have h02 : o₂ = o₀ :=
      List.inj_on_of_nodup_map hnd ho₂ (get_order_mem hget) (by rw [hc, get_order_id hget])
    have hiteid : ((fun o => if o.id = oid then g o else o) o₂).id = o₂.id := by
      simp only [hc, if_pos]
      rw [hid o₂, hc]
    have hoeq : o = o₂ := by
      apply List.inj_on_of_nodup_map hnd ho ho₂
      rw [← hid', hiteid]
    simp only [hc, if_pos]
    rw [hoeq, h02]
    exact hstep
  · simp only [hc, if_neg, ite_false]
    have hoeq : o₂ = o := by
      apply List.inj_on_of_nodup_map hnd ho₂ ho
      have : ((fun o => if o.id = oid then g o else o) o₂).id = o₂.id := by
        simp only [hc, if_neg, ite_false]
      rw [← this, hid']
    left
    rw [hoeq]

theorem inv_drain (n : Nat) (st : St) (h : Inv st) : Inv (drain n st) := by
  induction n generalizing st with
  | zero => exact h
  | succ n ih => exact ih _ (inv_refund_process_one st h)

theorem inv_refund_cycle (st : St) (h : Inv st) : Inv (refund_cycle st) := by
  unfold refund_cycle
  apply inv_drain
  exact ⟨h.users_nodup, h.orders_nodup, h.orders_lt_next, h.statuses,
    h.customers_exist, h.codes_nodup, h.used_oids_nodup, h.used_terminal⟩

theorem ordersAdvance_cycle (st : St) (hinv : Inv st) :
    OrdersAdvance st (refund_cycle st) := by
  intro o ho o' ho' hid
  have hres_inv : Inv (refund_cycle st) := inv_refund_cycle st hinv
  have hfind : get_order (refund_cycle st) o'.id = some o' :=
    get_order_of_mem _ hres_inv.orders_nodup ho'
  rw [hid] at hfind
  by_cases hexp : Expired st o
  · have hg := (refund_cycle_spec st hinv).1 o ho hexp
    rw [hg] at hfind
    have ho'eq : o' = { o with status := "refunded", updated_at := st.now } :=
      (Option.some_inj.mp hfind).symm
    rw [ho'eq]
    right; right; right
    exact ⟨hexp.1, Or.inr rfl⟩
  · have hg := (refund_cycle_spec st hinv).2.1 o ho hexp
    rw [hg] at hfind
    left
    rw [(Option.some_inj.mp hfind).symm]

theorem ordersAdvance_step (ev : Ev) (st : St) (hinv : Inv st)
    (hne : ev ≠ Ev.refundStep) : OrdersAdvance st (step ev st) := by
  cases ev with
  | start tg => exact ordersAdvance_of_eq st _ hinv.orders_nodup (goc_orders st tg)
  | set_role tg r => exact ordersAdvance_of_eq st _ hinv.orders_nodup rfl
  | set_email tg e =>
    apply ordersAdvance_of_eq st _ hinv.orders_nodup
    show (set_user_email (get_or_create_user st tg) tg e).orders = st.orders
    rw [show (set_user_email (get_or_create_user st tg) tg e).orders
        = (get_or_create_user st tg).orders from rfl, goc_orders]
  | topup tg =>
    apply ordersAdvance_of_eq st _ hinv.orders_nodup
    show (cb_wallet_topup st tg).orders = st.orders
    unfold cb_wallet_topup
    split <;> rfl
  | create tg title description amount dh ad_link =>
    show OrdersAdvance st (fsm_order_finish st tg title description amount dh ad_link)
    unfold fsm_order_finish
    cases hu : get_user st tg with
    | none => exact ordersAdvance_of_eq st st hinv.orders_nodup rfl
    | some u =>
      by_cases hb : u.balance < amount
      · simp only [if_pos hb]
        exact ordersAdvance_of_eq st st hinv.orders_nodup rfl
      · simp only [if_neg hb]
        intro o ho o' ho' hid
        have ho'mem : o' ∈ st.orders ++
            [{ id := st.nextOrderId, customer_tg_id := tg,
               assigned_executor_tg_id := none, title := title, description := description,
               amount := amount, ad_link := ad_link, status := "open",
               deadline_at := st.now + dh, confirm_code := none,
               confirm_deadline_at := none, created_at := st.now, updated_at := st.now }] := ho'
        rcases List.mem_append.mp ho'mem with ho' | ho'
        · have : o' = o := List.inj_on_of_nodup_map hinv.orders_nodup ho' ho hid
          left
          rw [this]
        · simp only [List.mem_singleton] at ho'
          exfalso
          have hlt := hinv.orders_lt_next o ho
          rw [← hid, ho'] at hlt
          exact Nat.lt_irrefl _ hlt
  | respond tg oid =>
    exact ordersAdvance_of_eq st _ hinv.orders_nodup (respond_orders st tg oid)
  | approve tg oid ex =>
    show OrdersAdvance st (cb_customer_approve st tg oid ex)
    unfold cb_customer_approve
    cases hgo : get_order st oid with
    | none => exact ordersAdvance_of_eq st st hinv.orders_nodup rfl
    | some o =>
      by_cases hc : o.customer_tg_id ≠ tg
      · simp only [if_pos hc]
        exact ordersAdvance_of_eq st st hinv.orders_nodup rfl
      · simp only [if_neg hc]
        by_cases hs : o.status ≠ "open"
        · simp only [if_pos hs]
          exact ordersAdvance_of_eq st st hinv.orders_nodup rfl
        · simp only [if_neg hs]
          push_neg at hs
          apply ordersAdvance_update st oid _ hinv.orders_nodup (by intro o'; rfl) o hgo _ _ rfl
          right; left
          exact ⟨hs, rfl⟩
  | deliver tg oid r =>
    show OrdersAdvance st (cb_executor_deliver st tg oid r)
    unfold cb_executor_deliver
    cases hgo : get_order st oid with
    | none => exact ordersAdvance_of_eq st st hinv.orders_nodup rfl
    | some o =>
      cases hgu : get_user st tg with
      | none => exact ordersAdvance_of_eq st st hinv.orders_nodup rfl
      | some u =>
        by_cases h1 : o.assigned_executor_tg_id ≠ some tg
        · simp only [if_pos h1]
          exact ordersAdvance_of_eq st st hinv.orders_nodup rfl
        · simp only [if_neg h1]
          by_cases h2 : o.status ≠ "in_progress"
          · simp only [if_pos h2]
            exact ordersAdvance_of_eq st st hinv.orders_nodup rfl
          · simp only [if_neg h2]
            push_neg at h2
            by_cases h3 : u.email = none
            · simp only [if_pos h3]
              exact ordersAdvance_of_eq st st hinv.orders_nodup rfl
            · simp only [if_neg h3]
              unfold mark_waiting_email_confirmation
              apply ordersAdvance_update st oid _ hinv.orders_nodup (by intro o'; rfl) o hgo _ _ rfl
              right; right; left
              exact ⟨h2, rfl⟩
  | check_email tg cands =>
    rcases cb_executor_check_email_cases st tg cands with heq | ⟨_, oid, code, o, hpass, heq⟩
    · show OrdersAdvance st (cb_executor_check_email st tg cands)
      rw [heq]
      exact ordersAdvance_of_eq st st hinv.orders_nodup rfl
    · show OrdersAdvance st (cb_executor_check_email st tg cands)
      rw [heq]
      apply ordersAdvance_update st oid _ hinv.orders_nodup (by intro o'; rfl) o hpass.1 _ _ rfl
      right; right; right
      exact ⟨hpass.2.2.1, Or.inl rfl⟩
  | refundScan => exact ordersAdvance_of_eq st _ hinv.orders_nodup rfl
  | refundStep => exact absurd rfl hne
  | tick d => exact ordersAdvance_of_eq st _ hinv.orders_nodup rfl

theorem padNum_length : ∀ (w n : Nat), (padNum w n).length = w := by
  intro w
  induction w with
  | zero => intro n; rfl
  | succ w ih => intro n; simp [padNum, ih]

theorem digitChar_isDigit (d : Nat) (h : d < 10) : (Nat.digitChar d).isDigit := by
  interval_cases d <;> decide

theorem digitChar_inj (d₁ d₂ : Nat) (h₁ : d₁ < 10) (h₂ : d₂ < 10)
    (h : Nat.digitChar d₁ = Nat.digitChar d₂) : d₁ = d₂ := by
  interval_cases d₁ <;> interval_cases d₂ <;> first | rfl | (exfalso; exact absurd h (by decide))

theorem padNum_digits : ∀ (w n : Nat), n < 10 ^ w → ∀ c ∈ padNum w n, c.isDigit := by
  intro w
  induction w with
  | zero => intro n _ c hc; cases hc
  | succ w ih =>
    intro n hn c hc
    rcases List.mem_cons.mp hc with hc | hc
    · rw [hc]
      apply digitChar_isDigit
      apply Nat.div_lt_of_lt_mul
      calc n < 10 ^ (w + 1) := hn
        _ = 10 ^ w * 10 := by ring
    · exact ih (n % 10 ^ w) (Nat.mod_lt n (Nat.pos_pow_of_pos w (by norm_num))) c hc

theorem padNum_inj : ∀ (w n m : Nat), n < 10 ^ w → m < 10 ^ w →
    padNum w n = padNum w m → n = m := by
  intro w
  induction w with
  | zero =>
    intro n m hn hm _
    simp only [pow_zero, Nat.lt_one_iff] at hn hm
    rw [hn, hm]
  | succ w ih =>
    intro n m hn hm heq
    simp only [padNum, List.cons.injEq] at heq
    have hdiv_n : n / 10 ^ w < 10 := by
      apply Nat.div_lt_of_lt_mul
      calc n < 10 ^ (w + 1) := hn
        _ = 10 ^ w * 10 := by ring
    have hdiv_m : m / 10 ^ w < 10 := by
      apply Nat.div_lt_of_lt_mul
      calc m < 10 ^ (w + 1) := hm
        _ = 10 ^ w * 10 := by ring
    have hd : n / 10 ^ w = m / 10 ^ w := digitChar_inj _ _ hdiv_n hdiv_m heq.1
    have hmod : n % 10 ^ w = m % 10 ^ w :=
      ih (n % 10 ^ w) (m % 10 ^ w)
        (Nat.mod_lt n (Nat.pos_pow_of_pos w (by norm_num)))
        (Nat.mod_lt m (Nat.pos_pow_of_pos w (by norm_num))) heq.2
    calc n = 10 ^ w * (n / 10 ^ w) + n % 10 ^ w := (Nat.div_add_mod n (10 ^ w)).symm
      _ = 10 ^ w * (m / 10 ^ w) + m % 10 ^ w := by rw [hd, hmod]
      _ = m := Nat.div_add_mod m (10 ^ w)

theorem genCode_length (r : Nat) : (genCode r).length = 6 := by
  show (padNum 6 (100000 + r % 900000)).length = 6
  exact padNum_length 6 _

theorem genCode_digits (r : Nat) : ∀ c ∈ (genCode r).data, c.isDigit := by
  intro c hc
  apply padNum_digits 6 (100000 + r % 900000) _ c hc
  have : r % 900000 < 900000 := Nat.mod_lt r (by norm_num)
  norm_num
  omega

theorem genCode_inj (r₁ r₂ : Nat) (h₁ : r₁ < 900000) (h₂ : r₂ < 900000)
    (h : genCode r₁ = genCode r₂) : r₁ = r₂ := by
  have hm₁ : r₁ % 900000 = r₁ := Nat.mod_eq_of_lt h₁
  have hm₂ : r₂ % 900000 = r₂ := Nat.mod_eq_of_lt h₂
  have hdata : padNum 6 (100000 + r₁ % 900000) = padNum 6 (100000 + r₂ % 900000) := by
    have := congrArg String.data h
    exact this
  have := padNum_inj 6 (100000 + r₁ % 900000) (100000 + r₂ % 900000)
    (by rw [hm₁]; norm_num; omega) (by rw [hm₂]; norm_num; omega) hdata
  omega

theorem genCode_card :
    ((Finset.range 900000).image genCode).card = 900000 := by
  rw [Finset.card_image_of_injOn, Finset.card_range]
  intro r₁ h₁ r₂ h₂ h
  exact genCode_inj r₁ r₂ (Finset.mem_range.mp (by simpa using h₁))
    (Finset.mem_range.mp (by simpa using h₂)) h

theorem usedCodes_step (ev : Ev) (st : St) :
    (step ev st).usedCodes = st.usedCodes ∨
      ∃ code oid, is_code_used st code = false ∧
        (step ev st).usedCodes = st.usedCodes ++ [(code, oid)] := by
  cases ev with
  | start tg => left; exact goc_usedCodes st tg
  | set_role tg r => left; rfl
  | set_email tg e =>
    left
    show (set_user_email (get_or_create_user st tg) tg e).usedCodes = st.usedCodes
    rw [show (set_user_email (get_or_create_user st tg) tg e).usedCodes
        = (get_or_create_user st tg).usedCodes from rfl, goc_usedCodes]
  | topup tg =>
    left
    show (cb_wallet_topup st tg).usedCodes = st.usedCodes
    unfold cb_wallet_topup
    split <;> rfl
  | create tg title description amount dh ad_link =>
    left
    show (fsm_order_finish st tg title description amount dh ad_link).usedCodes = st.usedCodes
    unfold fsm_order_finish
    rcases get_user st tg with _ | u
    · rfl
    · dsimp only
      split <;> rfl
  | respond tg oid => left; exact respond_usedCodes st tg oid
  | approve tg oid ex =>
    left
    show (cb_customer_approve st tg oid ex).usedCodes = st.usedCodes
    unfold cb_customer_approve assign_executor
    split
    · rfl
    · split
      · rfl
      · split <;> rfl
  | deliver tg oid r =>
    left
    show (cb_executor_deliver st tg oid r).usedCodes = st.usedCodes
    unfold cb_executor_deliver mark_waiting_email_confirmation
    split
    · split
      · rfl
      · split
        · rfl
        · split <;> rfl
    · rfl
  | check_email tg cands =>
    rcases cb_executor_check_email_cases st tg cands with heq | ⟨_, oid, code, o, hpass, heq⟩
    · left
      show (cb_executor_check_email st tg cands).usedCodes = st.usedCodes
      rw [heq]
    · right
      refine ⟨code, oid, hpass.2.2.2.1, ?_⟩
      show (cb_executor_check_email st tg cands).usedCodes = _
      rw [heq]
      rfl
  | refundScan => left; rfl
  | refundStep =>
    left
    show (refund_process_one st).usedCodes = st.usedCodes
    unfold refund_process_one
    split <;> rfl
  | tick d => left; rfl

theorem lex_cons_iff' {a b : Char} {l₁ l₂ : List Char} :
    List.Lex (· < ·) (a :: l₁) (b :: l₂) ↔ a < b ∨ (a = b ∧ List.Lex (· < ·) l₁ l₂) := by
  constructor
  · intro h
    cases h with
    | rel h => exact Or.inl h
    | cons h => exact Or.inr ⟨rfl, h⟩
  · intro h
    rcases h with h | ⟨rfl, h⟩
    · exact List.Lex.rel h
    · exact List.Lex.cons h

theorem lex_irrefl (l : List Char) : ¬ List.Lex (· < ·) l l := by
  induction l with
  | nil => intro h; cases h
  | cons a t ih =>
    intro h
    cases h with
    | rel h => exact lt_irrefl a h
    | cons h => exact ih h

theorem lex_append_iff (xs : List Char) :
    ∀ (ys as bs : List Char), xs.length = ys.length →
    (List.Lex (· < ·) (xs ++ as) (ys ++ bs) ↔
      List.Lex (· < ·) xs ys ∨ (xs = ys ∧ List.Lex (· < ·) as bs)) := by
  induction xs with
  | nil =>
    intro ys as bs hlen
    have : ys = [] := by
      cases ys with
      | nil => rfl
      | cons y t => simp at hlen
    subst this
    simp only [List.nil_append]
    constructor
    · intro h
      exact Or.inr ⟨by trivial, h⟩
    · intro h
      rcases h with h | ⟨_, h⟩
      · cases h
      · exact h
  | cons x xs ih =>
    intro ys as bs hlen
    cases ys with
    | nil => simp at hlen
    | cons y ys =>
      simp only [List.length_cons, Nat.succ_inj] at hlen
      simp only [List.cons_append]
      rw [lex_cons_iff', lex_cons_iff', ih ys as bs hlen]
      constructor
      · intro h
        rcases h with h | ⟨rfl, h | ⟨rfl, h⟩⟩
        · exact Or.inl (Or.inl h)
        · exact Or.inl (Or.inr ⟨rfl, h⟩)
        · exact Or.inr ⟨rfl, h⟩
      · intro h
        rcases h with (h | ⟨rfl, h⟩) | ⟨heq, h⟩
        · exact Or.inl h
        · exact Or.inr ⟨rfl, Or.inl h⟩
        · rw [List.cons.injEq] at heq
          obtain ⟨rfl, rfl⟩ := heq
          exact Or.inr ⟨rfl, Or.inr ⟨rfl, h⟩⟩

theorem digitChar_lt_iff (d₁ d₂ : Nat) (h₁ : d₁ < 10) (h₂ : d₂ < 10) :
    Nat.digitChar d₁ < Nat.digitChar d₂ ↔ d₁ < d₂ := by
  interval_cases d₁ <;> interval_cases d₂ <;> simp <;> decide

theorem mixed_radix_lt (P q₁ r₁ q₂ r₂ : Nat) (hP : 0 < P) (h₁ : r₁ < P) (h₂ : r₂ < P) :
    q₁ * P + r₁ < q₂ * P + r₂ ↔ q₁ < q₂ ∨ (q₁ = q₂ ∧ r₁ < r₂) := by
  constructor
  · intro h
    rcases Nat.lt_trichotomy q₁ q₂ with hq | hq | hq
    · exact Or.inl hq
    · subst hq
      exact Or.inr ⟨rfl, by omega⟩
    · exfalso
      have hexp : (q₂ + 1) * P = q₂ * P + P := by ring
      have hle : (q₂ + 1) * P ≤ q₁ * P := Nat.mul_le_mul_right P hq
      omega
  · intro h
    rcases h with hq | ⟨rfl, hr⟩
    · have hexp : (q₁ + 1) * P = q₁ * P + P := by ring
      have h2 : (q₁ + 1) * P ≤ q₂ * P := Nat.mul_le_mul_right P hq
      omega
    · omega

theorem mixed_radix_eq (P q₁ r₁ q₂ r₂ : Nat) (hP : 0 < P) (h₁ : r₁ < P) (h₂ : r₂ < P)
    (h : q₁ * P + r₁ = q₂ * P + r₂) : q₁ = q₂ ∧ r₁ = r₂ := by
  have hq : q₁ = q₂ := by
    have e₁ : (q₁ * P + r₁) / P = q₁ := by
      rw [Nat.add_div_of_dvd_right ⟨q₁, Nat.mul_comm q₁ P⟩]
      rw [Nat.mul_div_cancel _ hP, Nat.div_eq_of_lt h₁]
      omega
    have e₂ : (q₂ * P + r₂) / P = q₂ := by
      rw [Nat.add_div_of_dvd_right ⟨q₂, Nat.mul_comm q₂ P⟩]
      rw [Nat.mul_div_cancel _ hP, Nat.div_eq_of_lt h₂]
      omega
    rw [← e₁, ← e₂, h]
  refine ⟨hq, ?_⟩
  subst hq
  omega

theorem lex_padNum_iff : ∀ (w n m : Nat), n < 10 ^ w → m < 10 ^ w →
    (List.Lex (· < ·) (padNum w n) (padNum w m) ↔ n < m) := by
  intro w
  induction w with
  | zero =>
    intro n m hn hm
    simp only [pow_zero, Nat.lt_one_iff] at hn hm
    subst hn; subst hm
    simp only [padNum]
    constructor
    · intro h; cases h
    · intro h; exact absurd h (lt_irrefl 0)
  | succ w ih =>
    intro n m hn hm
    have hdiv_n : n / 10 ^ w < 10 := by
      apply Nat.div_lt_of_lt_mul
      calc n < 10 ^ (w + 1) := hn
        _ = 10 ^ w * 10 := by ring
    have hdiv_m : m / 10 ^ w < 10 := by
      apply Nat.div_lt_of_lt_mul
      calc m < 10 ^ (w + 1) := hm
        _ = 10 ^ w * 10 := by ring
    have hmod_n : n % 10 ^ w < 10 ^ w := Nat.mod_lt n (Nat.pos_pow_of_pos w (by norm_num))
    have hmod_m : m % 10 ^ w < 10 ^ w := Nat.mod_lt m (Nat.pos_pow_of_pos w (by norm_num))
    simp only [padNum]
    rw [lex_cons_iff', ih (n % 10 ^ w) (m % 10 ^ w) hmod_n hmod_m,
        digitChar_lt_iff _ _ hdiv_n hdiv_m]
    have hn_decomp : n = (n / 10 ^ w) * 10 ^ w + n % 10 ^ w := by
      rw [Nat.mul_comm]
      exact (Nat.div_add_mod n (10 ^ w)).symm
    have hm_decomp : m = (m / 10 ^ w) * 10 ^ w + m % 10 ^ w := by
      rw [Nat.mul_comm]
      exact (Nat.div_add_mod m (10 ^ w)).symm
    constructor
    · intro h
      rcases h with h | ⟨heq, h⟩
      · rw [hn_decomp, hm_decomp]
        exact (mixed_radix_lt (10 ^ w) _ _ _ _ (Nat.pos_pow_of_pos w (by norm_num))
          hmod_n hmod_m).mpr (Or.inl h)
      · have hd : n / 10 ^ w = m / 10 ^ w := digitChar_inj _ _ hdiv_n hdiv_m heq
        rw [hn_decomp, hm_decomp]
        exact (mixed_radix_lt (10 ^ w) _ _ _ _ (Nat.pos_pow_of_pos w (by norm_num))
          hmod_n hmod_m).mpr (Or.inr ⟨hd, h⟩)
    · intro h
      have := (mixed_radix_lt (10 ^ w) (n / 10 ^ w) (n % 10 ^ w) (m / 10 ^ w) (m % 10 ^ w)
        (Nat.pos_pow_of_pos w (by norm_num)) hmod_n hmod_m).mp
        (by rw [← hn_decomp, ← hm_decomp]; exact h)
      rcases this with h | ⟨heq, h⟩
      · exact Or.inl h
      · exact Or.inr ⟨by rw [heq], h⟩

theorem padNum_eq_iff (w n m : Nat) (hn : n < 10 ^ w) (hm : m < 10 ^ w) :
    padNum w n = padNum w m ↔ n = m := by
  constructor
  · exact padNum_inj w n m hn hm
  · intro h; rw [h]

theorem lex_frac_iff (m₁ m₂ : Nat) (h₁ : m₁ < 1000000) (h₂ : m₂ < 1000000) :
    (List.Lex (· < ·)
      ((if m₁ = 0 then [] else '.' :: padNum 6 m₁) ++ utcSuffix)
      ((if m₂ = 0 then [] else '.' :: padNum 6 m₂) ++ utcSuffix) ↔ m₁ < m₂) := by
  have h₁' : m₁ < 10 ^ 6 := by norm_num; omega
  have h₂' : m₂ < 10 ^ 6 := by norm_num; omega
  by_cases hm₁ : m₁ = 0 <;> by_cases hm₂ : m₂ = 0
  · rw [if_pos hm₁, if_pos hm₂]
    simp only [List.nil_append]
    constructor
    · intro h
      exact absurd h (lex_irrefl _)
    · intro h
      omega
  · rw [if_pos hm₁, if_neg hm₂]
    simp only [List.nil_append, List.cons_append]
    constructor
    · intro _
      omega
    · intro _
      exact List.Lex.rel (by decide)
  · rw [if_neg hm₁, if_pos hm₂]
    simp only [List.nil_append, List.cons_append]
    constructor
    · intro h
      cases h with
      | rel h => exact absurd h (by decide)
    · intro h
      omega
  · rw [if_neg hm₁, if_neg hm₂]
    simp only [List.cons_append]
    rw [lex_cons_iff']
    rw [lex_append_iff _ _ _ _ (by rw [padNum_length, padNum_length])]
    rw [lex_padNum_iff 6 m₁ m₂ h₁' h₂', padNum_eq_iff 6 m₁ m₂ h₁' h₂']
    constructor
    · rintro (h | ⟨_, h | ⟨_, h⟩⟩)
      · exact absurd h (lt_irrefl _)
      · exact h
      · exact absurd h (lex_irrefl _)
    · intro h
      exact Or.inr ⟨rfl, Or.inl h⟩

theorem lex_field_cons (sep : Char) (w n m : Nat) (hn : n < 10 ^ w) (hm : m < 10 ^ w)
    (A B : List Char) :
    (List.Lex (· < ·) (padNum w n ++ sep :: A) (padNum w m ++ sep :: B) ↔
      n < m ∨ (n = m ∧ List.Lex (· < ·) A B)) := by
  rw [lex_append_iff _ _ _ _ (by rw [padNum_length, padNum_length])]
  rw [lex_padNum_iff w n m hn hm, padNum_eq_iff w n m hn hm, lex_cons_iff']
  constructor
  · rintro (h | ⟨rfl, h | ⟨_, h⟩⟩)
    · exact Or.inl h
    · exact absurd h (lt_irrefl sep)
    · exact Or.inr ⟨rfl, h⟩
  · rintro (h | ⟨rfl, h⟩)
    · exact Or.inl h
    · exact Or.inr ⟨rfl, Or.inr ⟨rfl, h⟩⟩

theorem iso_lex_iff (t₁ t₂ : PyDateTime) (v₁ : ValidDT t₁) (v₂ : ValidDT t₂) :
    (List.Lex (· < ·) (isoChars t₁) (isoChars t₂) ↔ fieldLex t₁ t₂) := by
  obtain ⟨hy₁, hmo₁l, hmo₁, hd₁l, hd₁, hh₁, hmi₁, hs₁, hus₁⟩ := v₁
  obtain ⟨hy₂, hmo₂l, hmo₂, hd₂l, hd₂, hh₂, hmi₂, hs₂, hus₂⟩ := v₂
  unfold isoChars fieldLex
  rw [lex_field_cons '-' 4 t₁.year t₂.year (by norm_num; omega) (by norm_num; omega)]
  rw [lex_field_cons '-' 2 t₁.month t₂.month (by norm_num; omega) (by norm_num; omega)]
  rw [lex_field_cons 'T' 2 t₁.day t₂.day (by norm_num; omega) (by norm_num; omega)]
  rw [lex_field_cons ':' 2 t₁.hour t₂.hour (by norm_num; omega) (by norm_num; omega)]
  rw [lex_field_cons ':' 2 t₁.minute t₂.minute (by norm_num; omega) (by norm_num; omega)]
  rw [lex_append_iff _ _ _ _ (by rw [padNum_length, padNum_length])]
  rw [lex_padNum_iff 2 t₁.second t₂.second (by norm_num; omega) (by norm_num; omega)]
  rw [padNum_eq_iff 2 t₁.second t₂.second (by norm_num; omega) (by norm_num; omega)]
  rw [lex_frac_iff t₁.microsecond t₂.microsecond hus₁ hus₂]

theorem dtKey_lt_iff (t₁ t₂ : PyDateTime) (v₁ : ValidDT t₁) (v₂ : ValidDT t₂) :
    dtKey t₁ < dtKey t₂ ↔ fieldLex t₁ t₂ := by
  obtain ⟨hy₁, hmo₁l, hmo₁, hd₁l, hd₁, hh₁, hmi₁, hs₁, hus₁⟩ := v₁
  obtain ⟨hy₂, hmo₂l, hmo₂, hd₂l, hd₂, hh₂, hmi₂, hs₂, hus₂⟩ := v₂
  unfold dtKey fieldLex
  omega

theorem checkEmailScan_append_fails (st : St) (tg : Nat) :
    ∀ (pre rest : List (Nat × String)), (∀ p ∈ pre, FailsCheck st tg p) →
    checkEmailScan st tg (pre ++ rest) = checkEmailScan st tg rest := by
  intro pre
  induction pre with
  | nil => intro rest _; rfl
  | cons p pre ih =>
    intro rest h
    obtain ⟨oid, code⟩ := p
    rw [List.cons_append, checkEmailScan_of_fails st tg oid code _ (h _ (by simp))]
    exact ih rest (fun q hq => h q (by simp [hq]))

theorem balanceOf_eq_of_get_user {st : St} {tg : Nat} {u : UserRow}
    (h : get_user st tg = some u) : balanceOf st tg = u.balance := by
  unfold balanceOf
  rw [h]

theorem get_order_confirmCommit_other (st : St) (tg oid : Nat) (code : String)
    (o : OrderRow) (oid' : Nat) (hne : oid' ≠ oid) :
    get_order (confirmCommit st tg oid code o) oid' = get_order st oid' := by
  unfold confirmCommit complete_order_with_code adjust_balance get_order
  simp only
  rw [get_order_map_orders _ _ (by intro o'; by_cases hc : o'.id = oid <;> simp [hc]) oid']
  cases hf : st.orders.find? (fun o'' => o''.id == oid') with
  | none => rfl
  | some o'' =>
    have hid : o''.id = oid' := by simpa using List.find?_some hf
    simp only [Option.map_some']
    rw [if_neg (by rw [hid]; exact hne)]

theorem get_order_confirmCommit_self (st : St) (tg oid : Nat) (code : String)
    (o : OrderRow) (hgo : get_order st oid = some o) :
    get_order (confirmCommit st tg oid code o) oid
      = some { o with status := "completed", updated_at := st.now } := by
  unfold confirmCommit complete_order_with_code adjust_balance get_order
  simp only
  rw [get_order_map_orders _ _ (by intro o'; by_cases hc : o'.id = oid <;> simp [hc]) oid]
  rw [show st.orders.find? (fun o'' => o''.id == oid) = some o from hgo]
  simp only [Option.map_some']
  rw [if_pos (get_order_id hgo)]

theorem balanceOf_confirmCommit (st : St) (tg oid : Nat) (code : String)
    (o : OrderRow) (tg' : Nat) :
    balanceOf (confirmCommit st tg oid code o) tg'
      = balanceOf st tg' + (if tg' = tg ∧ (get_user st tg').isSome then o.amount else 0) := by
  have h1 : balanceOf (confirmCommit st tg oid code o) tg'
      = balanceOf (adjust_balance (complete_order_with_code st oid code) tg o.amount) tg' := rfl
  rw [h1, balanceOf_adjust_balance]
  rfl

theorem sreach_run_no_refund (evs : List Ev)
    (h : ∀ ev ∈ evs, ev ≠ Ev.refundScan ∧ ev ≠ Ev.refundStep) :
    ∀ st : St, SReach st → SReach (run st evs) := by
  induction evs with
  | nil => intro st hst; exact hst
  | cons ev rest ih =>
    intro st hst
    exact ih (fun e he => h e (by simp [he])) (step ev st)
      (SReach.step ev (h ev (by simp)).1 (h ev (by simp)).2 hst)

theorem serialSt_sreach : SReach serialSt :=
  sreach_run_no_refund serialTrace (by decide) init SReach.init

/-- Claim C1, counterexample: in the reachable state `raceSt` both terminal
payouts have occurred for order 2 — the worker was credited (the used-code
row `("123456", 2)` is exactly the confirm commit) and the order is marked
`refunded` with the requester re-credited: balances are 1000 and 300 out of
1000 deposited.  The interleaving is the one the source allows: the refund
loop snapshots two expired orders, refunds the first, yields on
`await bot.send_message`, a confirm commits on the second order, and the
resumed loop refunds the second order from its stale snapshot. -/
theorem C1_counterexample :
    Reach raceSt ∧ confirmPaidOut raceSt 2 ∧ refundPaidOut raceSt 2 ∧
    balanceOf raceSt 2 = 300 ∧ balanceOf raceSt 1 = 1000 :=
  ⟨Reach.step Ev.refundStep (reach_run_init racePrefix),
   ⟨"123456", by decide⟩,
   (by decide : statusOf raceSt 2 = some "refunded"), by decide, by decide⟩

/-- Claim C1, amended: when every reconciliation cycle runs serialized with
respect to the handlers (`SReach`), at most one of the two terminal payouts
can ever have occurred for a given order: a confirm payout (witnessed by a
used-code row) and an expire-refund payout (witnessed by status `refunded`)
are mutually exclusive in every reachable state of the serialized system. -/
theorem C1_payouts_mutually_exclusive (st : St) (oid : Nat) (h : SReach st) :
    ¬ (confirmPaidOut st oid ∧ refundPaidOut st oid) := by
  rintro ⟨⟨c, hc⟩, hr⟩
  have hs := sreach_sinv h
  obtain ⟨o, ho, hoid, hcomp⟩ := hs.used_completed (c, oid) hc
  have hoid' : o.id = oid := hoid
  unfold refundPaidOut statusOf at hr
  have hgo : get_order st oid = some o := by
    rw [← hoid']
    exact get_order_of_mem st hs.inv.orders_nodup ho
  rw [hgo] at hr
  simp only [Option.map_some'] at hr
  have hofr : o.status = "refunded" := by simpa using hr
  rw [hcomp] at hofr
  simp at hofr

/-- Witness for C1's amended theorem at the completed serialized flow. -/
theorem C1_witness : ¬ (confirmPaidOut serialSt 1 ∧ refundPaidOut serialSt 1) :=
  C1_payouts_mutually_exclusive serialSt 1 serialSt_sreach

/-- Claim C2, counterexample: in the reachable state `raceMid` order 2 is
`completed`, and executing one more step of the source (`refundStep`, the
pending loop iteration over the stale snapshot) changes the status of that
completed order to `refunded` — an operation mutating a terminal order. -/
theorem C2_counterexample :
    Reach raceMid ∧ statusOf raceMid 2 = some "completed" ∧
    statusOf (step Ev.refundStep raceMid) 2 = some "refunded" :=
  ⟨reach_run_init racePrefix, by decide, by decide⟩

/-- Claim C2, amended: in every reachable state all statuses are among the
five of §4.1, and every operation except a `refundStep` acting on a stale
snapshot (equivalently: every handler, and every reconciliation cycle run
serialized) moves each order's status only forward along
`open → in_progress → waiting_email_confirmation → {completed, refunded}`,
never backward, never skipping, never out of a terminal status. -/
theorem C2_statuses_and_forward (st : St) (h : Reach st) :
    (∀ o ∈ st.orders, o.status ∈ allowedStatuses) ∧
    (∀ ev : Ev, ev ≠ Ev.refundStep → OrdersAdvance st (step ev st)) ∧
    OrdersAdvance st (refund_cycle st) :=
  ⟨(inv_reach h).statuses,
   fun ev hne => ordersAdvance_step ev st (inv_reach h) hne,
   ordersAdvance_cycle st (inv_reach h)⟩

/-- Witness for C2's amended theorem at the completed serialized flow. -/
theorem C2_witness :
    ({ c3o with status := "completed" } : OrderRow).status ∈ allowedStatuses :=
  (C2_statuses_and_forward serialSt (reach_run_init serialTrace)).1
    { c3o with status := "completed" } (by decide)

/-- Claim C7, counterexample: in the reachable state `raceSt` the escrow
conservation law fails for account 1 — its balance plus escrow reserved in
its non-terminal orders is 1000, while the ghost ledger of credits/debits
applied to it (one +1000 deposit and one −300 escrow release to the worker)
totals 700; globally the two accounts hold 1300 of the 1000 deposited, so
the interleaved confirm/refund double payout created value. -/
theorem C7_counterexample :
    Reach raceSt ∧ balanceOf raceSt 1 + pendingReserved raceSt 1 ≠ raceSt.applied 1 ∧
    balanceOf raceSt 1 + balanceOf raceSt 2 = 1300 ∧
    raceSt.applied 1 + raceSt.applied 2 = 1000 :=
  ⟨Reach.step Ev.refundStep (reach_run_init racePrefix), by decide, by decide, by decide⟩

/-- Claim C7, amended: in every state reachable with reconciliation cycles
serialized against the handlers, every account's balance plus the amount
reserved in its non-terminal orders as requester equals the sum of all
credits/debits applied to the account from genesis (the ghost ledger
`St.applied`: external deposits plus escrow releases received, minus escrow
released to workers) — the create, confirm and expire-refund transitions
neither create nor destroy value. -/
theorem C7_conservation (st : St) (h : SReach st) :
    ∀ tg, balanceOf st tg + pendingReserved st tg = st.applied tg :=
  (sreach_sinv h).conserve

/-- Witness for C7's amended theorem at the completed serialized flow. -/
theorem C7_witness : balanceOf serialSt 1 + pendingReserved serialSt 1 = serialSt.applied 1 :=
  C7_conservation serialSt serialSt_sreach 1

/-- Claim C3: in an email-confirmation check by worker `tg` (who exists and
has an email on file), candidates are scanned in order; if every candidate
of a prefix fails one of the five checks (order exists, assigned to caller,
at `waiting_email_confirmation`, code unused, code equals the stored code)
and the next candidate passes all of them against row `o`, then exactly
this happens: the code is inserted into the used-code registry, the order
becomes `completed`, the worker is credited by the order's amount, and
nothing else changes — all remaining candidates are ignored; and if every
candidate fails, the state is unchanged. -/
theorem C3_confirm_first_passing (st : St) (tg : Nat) (u : UserRow) (e : String)
    (pre post : List (Nat × String)) (oid : Nat) (code : String) (o : OrderRow)
    (hu : get_user st tg = some u) (he : u.email = some e)
    (hpre : ∀ p ∈ pre, FailsCheck st tg p)
    (hpass : PassesCheck st tg oid code o) :
    ((cb_executor_check_email st tg (pre ++ (oid, code) :: post)).usedCodes
        = st.usedCodes ++ [(code, oid)]
      ∧ get_order (cb_executor_check_email st tg (pre ++ (oid, code) :: post)) oid
          = some { o with status := "completed", updated_at := st.now }
      ∧ balanceOf (cb_executor_check_email st tg (pre ++ (oid, code) :: post)) tg
          = balanceOf st tg + o.amount
      ∧ (∀ oid', oid' ≠ oid →
          get_order (cb_executor_check_email st tg (pre ++ (oid, code) :: post)) oid'
            = get_order st oid')
      ∧ (∀ tg', tg' ≠ tg →
          balanceOf (cb_executor_check_email st tg (pre ++ (oid, code) :: post)) tg'
            = balanceOf st tg')
      ∧ (cb_executor_check_email st tg (pre ++ (oid, code) :: post)).responses = st.responses
      ∧ (cb_executor_check_email st tg (pre ++ (oid, code) :: post)).nextOrderId
          = st.nextOrderId)
    ∧ (∀ cands : List (Nat × String), (∀ p ∈ cands, FailsCheck st tg p) →
        cb_executor_check_email st tg cands = st) := by
  have hene : ¬ u.email = none := by rw [he]; simp
  have hred : ∀ cands : List (Nat × String),
      cb_executor_check_email st tg cands = checkEmailScan st tg cands := by
    intro cands
    simp [cb_executor_check_email, hu, hene]
  have hmain : cb_executor_check_email st tg (pre ++ (oid, code) :: post)
      = confirmCommit st tg oid code o := by
    rw [hred, checkEmailScan_append_fails st tg pre _ hpre,
        checkEmailScan_of_passes st tg oid code o post hpass]
  refine ⟨⟨?_, ?_, ?_, ?_, ?_, ?_, ?_⟩, ?_⟩
  · rw [hmain]; rfl
  · rw [hmain]
    exact get_order_confirmCommit_self st tg oid code o hpass.1
  · rw [hmain, balanceOf_confirmCommit]
    rw [if_pos ⟨rfl, by simp [hu]⟩]
  · intro oid' hne
    rw [hmain]
    exact get_order_confirmCommit_other st tg oid code o oid' hne
  · intro tg' hne
    rw [hmain, balanceOf_confirmCommit, if_neg (by tauto)]
    ring
  · rw [hmain]; rfl
  · rw [hmain]; rfl
  · intro cands hall
    rw [hred, checkEmailScan_all_fail st tg cands hall]

/-- Witness for C3 at the concrete serialized flow: confirming candidate
`(1, "100000")` credits worker 2 by 300 and registers the code. -/
theorem C3_witness :
    (cb_executor_check_email c3st 2 ([] ++ (1, "100000") :: [])).usedCodes
      = c3st.usedCodes ++ [("100000", 1)] ∧
    balanceOf (cb_executor_check_email c3st 2 ([] ++ (1, "100000") :: [])) 2
      = balanceOf c3st 2 + c3o.amount :=
  ⟨(C3_confirm_first_passing c3st 2 c3u "w@x" [] [] 1 "100000" c3o (by decide) (by decide)
      (by intro p hp; cases hp)
      ⟨by decide, by decide, by decide, by decide, by decide⟩).1.1,
   (C3_confirm_first_passing c3st 2 c3u "w@x" [] [] 1 "100000" c3o (by decide) (by decide)
      (by intro p hp; cases hp)
      ⟨by decide, by decide, by decide, by decide, by decide⟩).1.2.2.1⟩

/-- Claim C4: an order-creation request by an existing requester either
debits exactly the requested amount and inserts exactly one new `open` order
carrying that amount (when the balance covers it), or — on insufficient
funds — leaves the entire state unchanged. -/
theorem C4_create_order_spec (st : St) (tg : Nat) (title description : String)
    (amount : ℤ) (dh : Nat) (ad_link : Option String) (u : UserRow)
    (hu : get_user st tg = some u) :
    (amount ≤ u.balance →
      (fsm_order_finish st tg title description amount dh ad_link).orders
          = st.orders ++ [{ id := st.nextOrderId, customer_tg_id := tg,
                            assigned_executor_tg_id := none, title := title,
                            description := description,
                            amount := amount, ad_link := ad_link, status := "open",
                            deadline_at := st.now + dh, confirm_code := none,
                            confirm_deadline_at := none,
                            created_at := st.now, updated_at := st.now }]
        ∧ (fsm_order_finish st tg title description amount dh ad_link).nextOrderId
            = st.nextOrderId + 1
        ∧ balanceOf (fsm_order_finish st tg title description amount dh ad_link) tg
            = u.balance - amount
        ∧ (∀ tg', tg' ≠ tg →
            balanceOf (fsm_order_finish st tg title description amount dh ad_link) tg'
              = balanceOf st tg')
        ∧ (fsm_order_finish st tg title description amount dh ad_link).usedCodes
            = st.usedCodes
        ∧ (fsm_order_finish st tg title description amount dh ad_link).responses
            = st.responses)
    ∧ (u.balance < amount →
        fsm_order_finish st tg title description amount dh ad_link = st) := by
  constructor
  · intro hge
    have hnl : ¬ u.balance < amount := not_lt.mpr hge
    have hred : fsm_order_finish st tg title description amount dh ad_link
        = (create_order (adjust_balance st tg (-amount)) tg title description amount dh
            ad_link).1 := by
      unfold fsm_order_finish
      rw [hu]
      dsimp only
      rw [if_neg hnl]
    refine ⟨by rw [hred]; rfl, by rw [hred]; rfl, ?_, ?_, by rw [hred]; rfl, by rw [hred]; rfl⟩
    · rw [hred]
      have hb : balanceOf (create_order (adjust_balance st tg (-amount)) tg title description
          amount dh ad_link).1 tg = balanceOf (adjust_balance st tg (-amount)) tg := rfl
      rw [hb, balanceOf_adjust_balance, if_pos ⟨rfl, by simp [hu]⟩,
          balanceOf_eq_of_get_user hu]
      ring
    · intro tg' hne
      rw [hred]
      have hb : balanceOf (create_order (adjust_balance st tg (-amount)) tg title description
          amount dh ad_link).1 tg' = balanceOf (adjust_balance st tg (-amount)) tg' := rfl
      rw [hb, balanceOf_adjust_balance, if_neg (by tauto)]
      ring
  · intro hlt
    unfold fsm_order_finish
    rw [hu]
    dsimp only
    rw [if_pos hlt]

/-- Witness for C4: with balance 1000, creating a 300 order leaves 700 and
appends the open order; the theorem applied at the funded two-user state. -/
theorem C4_witness :
    balanceOf (fsm_order_finish (run init [ .start 1, .topup 1 ]) 1 "t" "d" 300 48 none) 1
      = 1000 - 300 :=
  ((C4_create_order_spec (run init [ .start 1, .topup 1 ]) 1 "t" "d" 300 48 none
      { tg_id := 1, role := none, balance := 1000, email := none }
      (by decide)).1 (by decide)).2.2.1

/-- Claim C5: one reconciliation cycle refunds exactly the orders at
`waiting_email_confirmation` whose confirmation deadline has passed — each
such order becomes `refunded` and its requester is credited its amount
(summed over that requester's expired orders), unconditionally — and leaves
every order that does not satisfy the precondition unchanged. -/
theorem C5_expire_refund_cycle (st : St) (h : Reach st) :
    (∀ o ∈ st.orders, Expired st o →
        get_order (refund_cycle st) o.id
          = some { o with status := "refunded", updated_at := st.now }) ∧
    (∀ o ∈ st.orders, ¬ Expired st o → get_order (refund_cycle st) o.id = some o) ∧
    (∀ tg, balanceOf (refund_cycle st) tg = balanceOf st tg
        + (((list_expired_confirmation_orders st).filter
            (fun q => q.customer_tg_id == tg)).map OrderRow.amount).sum) :=
  refund_cycle_spec st (inv_reach h)

/-- Witness for C5 at the expired serialized flow: the cycle marks order 1
refunded. -/
theorem C5_witness :
    get_order (refund_cycle expSt) c3o.id
      = some { c3o with status := "refunded", updated_at := expSt.now } :=
  (C5_expire_refund_cycle expSt (reach_run_init (serialPre ++ [ Ev.tick 25 ]))).1
    c3o (by decide) ⟨by decide, 24, by decide, by decide⟩

/-- Claim C6: in every reachable state the used-code registry has no
duplicate code and no duplicate order id (each code redeemed at most once
system-wide, each order credited at most once), and once a code is present,
no step of the system — in particular no later confirm, for any order —
adds or removes an entry carrying that code. -/
theorem C6_code_single_use (st : St) (h : Reach st) :
    (st.usedCodes.map Prod.fst).Nodup ∧ (st.usedCodes.map Prod.snd).Nodup ∧
    ∀ (ev : Ev) (c : String), c ∈ st.usedCodes.map Prod.fst →
      (step ev st).usedCodes.filter (fun p => p.1 == c)
        = st.usedCodes.filter (fun p => p.1 == c) := by
  have hinv := inv_reach h
  refine ⟨hinv.codes_nodup, hinv.used_oids_nodup, ?_⟩
  intro ev c hc
  rcases usedCodes_step ev st with heq | ⟨code, oid, hunused, heq⟩
  · rw [heq]
  · rw [heq, List.filter_append]
    have hne : (code == c) = false := by
      obtain ⟨p, hp, hpc⟩ := List.mem_map.mp hc
      unfold is_code_used at hunused
      simp only [List.any_eq_false, beq_iff_eq] at hunused
      simp only [beq_eq_false_iff_ne, ne_eq]
      intro hcc
      exact hunused p hp (by rw [← hpc] at hcc; exact hcc.symm)
    rw [show List.filter (fun p => p.1 == c) [(code, oid)] = [] by simp [List.filter, hne]]
    simp

/-- Witness for C6 at the completed serialized flow: replaying the same
confirmation candidate consumes nothing. -/
theorem C6_witness :
    (step (Ev.check_email 2 [(1, "100000")]) serialSt).usedCodes.filter
        (fun p => p.1 == "100000")
      = serialSt.usedCodes.filter (fun p => p.1 == "100000") :=
  (C6_code_single_use serialSt (reach_run_init serialTrace)).2.2
    (Ev.check_email 2 [(1, "100000")]) "100000" (by decide)

/-- Claim C8, counterexample: in the reachable state `c8St`, order 1 is
pending (`waiting_email_confirmation`) with issued code `"100000"`, and a
`deliver` for order 2 whose random draw produces the very same code still
succeeds and stores `"100000"` on order 2 — the generator performs no
collision check against currently pending codes. -/
theorem C8_counterexample :
    Reach c8St ∧
    (get_order c8St 1).map OrderRow.confirm_code = some (some "100000") ∧
    statusOf c8St 1 = some "waiting_email_confirmation" ∧
    statusOf c8St 2 = some "in_progress" ∧
    (get_order (step (Ev.deliver 2 2 0) c8St) 2).map OrderRow.confirm_code
      = some (some "100000") ∧
    statusOf (step (Ev.deliver 2 2 0) c8St) 2 = some "waiting_email_confirmation" :=
  ⟨reach_run_init c8Pre, by decide, by decide, by decide, by decide, by decide⟩

/-- Claim C8, amended: every code the deliver transition can generate is a
fixed-length string of exactly six decimal digits drawn from a space of
exactly 900000 values, and a successful deliver stores precisely that code
(with the 24-hour confirmation deadline) on the order — but no collision
check against pending codes is performed. -/
theorem C8_code_format (r : Nat) :
    (genCode r).length = 6 ∧ (∀ c ∈ (genCode r).data, c.isDigit) ∧
    ((Finset.range 900000).image genCode).card = 900000 ∧
    (∀ (st : St) (tg oid : Nat) (o : OrderRow) (u : UserRow),
      get_order st oid = some o → get_user st tg = some u →
      o.assigned_executor_tg_id = some tg → o.status = "in_progress" → u.email ≠ none →
      get_order (cb_executor_deliver st tg oid r) oid
        = some { o with status := "waiting_email_confirmation",
                        confirm_code := some (genCode r),
                        confirm_deadline_at := some (st.now + DEFAULT_CONFIRM_DEADLINE_HOURS),
                        updated_at := st.now }) := by
  refine ⟨genCode_length r, genCode_digits r, genCode_card, ?_⟩
  intro st tg oid o u hgo hgu hass hst hem
  unfold cb_executor_deliver
  rw [hgo, hgu]
  dsimp only
  rw [if_neg (by simp [hass]), if_neg (by simp [hst]), if_neg hem]
  unfold mark_waiting_email_confirmation get_order
  rw [get_order_map_orders _ _ (by intro o'; by_cases hc : o'.id = oid <;> simp [hc]) oid]
  rw [show st.orders.find? (fun o'' => o''.id == oid) = some o from hgo]
  simp only [Option.map_some']
  rw [if_pos (get_order_id hgo)]

/-- Witness for C8's amended theorem: the code of draw 0 and the concrete
deliver of order 2 in `c8St`. -/
theorem C8_witness :
    (genCode 0).length = 6 ∧
    get_order (cb_executor_deliver c8St 2 2 0) 2
      = some { c8o2 with status := "waiting_email_confirmation",
                         confirm_code := some (genCode 0),
                         confirm_deadline_at := some (c8St.now + DEFAULT_CONFIRM_DEADLINE_HOURS),
                         updated_at := c8St.now } :=
  ⟨(C8_code_format 0).1,
   (C8_code_format 0).2.2.2 c8St 2 2 c8o2 c3u
     (by decide) (by decide) (by decide) (by decide) (by decide)⟩

/-- Claim C9, counterexample: in the reachable state `c9St` the requester of
open order 1 is account 1, and account 1's own respond press on that order
was accepted — the Response row `(1, 1)` was inserted, so an application by
the order's owning requester is not rejected. -/
theorem C9_counterexample :
    Reach c9St ∧ (get_order c9St 1).map OrderRow.customer_tg_id = some 1 ∧
    statusOf c9St 1 = some "open" ∧ (1, 1) ∈ c9St.responses :=
  ⟨reach_run_init [ .start 1, .topup 1, .create 1 "t" "d" 300 48 none, .respond 1 1 ],
   by decide, by decide, by decide⟩

/-- Claim C9, amended: an apply to an existing `open` order inserts a
Response exactly when the applicant has no prior Response for it, and is a
no-op on a duplicate — with no check at all that the applicant differs from
the order's owning requester (self-application is prevented only by the
listing and broadcast UI, not by the apply handler). -/
theorem C9_respond_spec (st : St) (tg oid : Nat) (o : OrderRow)
    (hgo : get_order st oid = some o) (ho : o.status = "open") :
    ((oid, tg) ∉ st.responses →
      (cb_executor_respond st tg oid).responses = st.responses ++ [(oid, tg)]) ∧
    ((oid, tg) ∈ st.responses → cb_executor_respond st tg oid = st) ∧
    (cb_executor_respond st tg oid).orders = st.orders ∧
    (cb_executor_respond st tg oid).users = st.users := by
  have hred : cb_executor_respond st tg oid = add_response st oid tg := by
    unfold cb_executor_respond
    rw [hgo]
    dsimp only
    rw [if_neg (by simp [ho])]
  refine ⟨?_, ?_, ?_, ?_⟩
  · intro hnm
    rw [hred]
    unfold add_response
    rw [if_neg hnm]
  · intro hm
    rw [hred]
    unfold add_response
    rw [if_pos hm]
  · rw [hred]
    unfold add_response
    split <;> rfl
  · rw [hred]
    unfold add_response
    split <;> rfl

/-- Witness for C9's amended theorem: the requester's own application to
their open order is inserted. -/
theorem C9_witness :
    (cb_executor_respond (run init [ .start 1, .topup 1, .create 1 "t" "d" 300 48 none ])
        1 1).responses
      = (run init [ .start 1, .topup 1, .create 1 "t" "d" 300 48 none ]).responses
        ++ [(1, 1)] :=
  (C9_respond_spec (run init [ .start 1, .topup 1, .create 1 "t" "d" 300 48 none ]) 1 1
    { id := 1, customer_tg_id := 1, assigned_executor_tg_id := none,
      title := "t", description := "d", amount := 300, ad_link := none,
      status := "open", deadline_at := 48, confirm_code := none,
      confirm_deadline_at := none, created_at := 0, updated_at := 0 }
    (by decide) (by decide)).1 (by decide)

/-- Claim C10: deadlines are persisted as ISO-8601 UTC text and expiry is a
lexicographic string comparison; on the values the generator
`datetime.now(timezone.utc).isoformat()` produces (modelled by `isoformat`
on `ValidDT` datetimes, including the case where a zero microsecond field
omits the fractional part entirely), string order agrees exactly with
chronological order (`dtKey`), for both strict and non-strict comparison. -/
theorem C10_iso_lex_chronological (t₁ t₂ : PyDateTime)
    (h₁ : ValidDT t₁) (h₂ : ValidDT t₂) :
    (isoformat t₁ < isoformat t₂ ↔ dtKey t₁ < dtKey t₂) ∧
    (isoformat t₁ ≤ isoformat t₂ ↔ dtKey t₁ ≤ dtKey t₂) := by
  have hlt : ∀ (a b : PyDateTime), ValidDT a → ValidDT b →
      (isoformat a < isoformat b ↔ dtKey a < dtKey b) := by
    intro a b va vb
    rw [String.lt_iff_toList_lt]
    show List.Lex (· < ·) (isoChars a) (isoChars b) ↔ _
    rw [iso_lex_iff a b va vb, dtKey_lt_iff a b va vb]
  refine ⟨hlt t₁ t₂ h₁ h₂, ?_⟩
  have h21 := hlt t₂ t₁ h₂ h₁
  constructor
  · intro hle
    have hnot : ¬ isoformat t₂ < isoformat t₁ := hle
    rw [h21] at hnot
    omega
  · intro hle
    show ¬ isoformat t₂ < isoformat t₁
    rw [h21]
    omega

/-- Witness for C10 at the tricky boundary pair: a timestamp with zero
microseconds (no fractional part in the text) sorts strictly before the same
second with one microsecond. -/
theorem C10_witness :
    isoformat ⟨2026, 10, 12, 14, 30, 5, 0⟩ < isoformat ⟨2026, 10, 12, 14, 30, 5, 1⟩ :=
  (C10_iso_lex_chronological ⟨2026, 10, 12, 14, 30, 5, 0⟩ ⟨2026, 10, 12, 14, 30, 5, 1⟩
    (by decide) (by decide)).1.mpr (by decide)

end Bot
